import Mathlib

/-!
# Verification of the msrplib core (protocol.py, transport.py, session.py)

Shallow embedding of the MSRP library's header codecs, URI model, chunk
model and transport helpers, together with theorems settling the frozen
claims about them.  Strings are modelled as `List Char`; Python `int` is
`Int`; fallible operations return `Option` or `Except Unit`.
-/

set_option maxRecDepth 4000
set_option linter.unusedVariables false

namespace Msrp

/-- Strings are modelled as lists of characters. -/
abbrev Str := List Char

/-- Coerce a Lean string literal to the model's string type. -/
def lit (s : String) : Str := s.data

/-! ## Decimal digits (Python `str(int)` / `int(str)`) -/

/-- The character for a decimal digit `n < 10`. -/
def digitCharM (n : Nat) : Char := Char.ofNat (48 + n)

/-- Fuel-driven digit accumulation (`fuel > n` always suffices). -/
def natDigitsAux : Nat → Nat → Str
  | 0, _ => []
  | fuel + 1, n =>
    if n < 10 then [digitCharM n]
    else natDigitsAux fuel (n / 10) ++ [digitCharM (n % 10)]

/-- Decimal digit string of a natural number, most significant first,
as produced by Python `str` on a non-negative int. -/
def natDigits (n : Nat) : Str := natDigitsAux (n + 1) n

/-- Python `str` on an int: minus sign for negatives, then digits. -/
def intStr (n : Int) : Str :=
  if n < 0 then '-' :: natDigits n.natAbs else natDigits n.natAbs

/-- Numeric value of a digit string (assumes all chars are digits). -/
def digitsVal (s : Str) : Nat :=
  s.foldl (fun a c => a * 10 + (c.toNat - 48)) 0

/-! ## Basic string helpers shared by the embedded code -/

/-- Split at the first occurrence of `sep` (nonempty); `none` if absent. -/
def splitFirst (sep : Str) : Str → Option (Str × Str)
  | [] => if sep.isPrefixOf [] then some ([], []) else none
  | c :: cs =>
    if sep.isPrefixOf (c :: cs) then some ([], (c :: cs).drop sep.length)
    else (splitFirst sep cs).map (fun p => (c :: p.1, p.2))

/-- Split at the last occurrence of character `c`; `none` if absent. -/
def splitLastChar (c : Char) (s : Str) : Option (Str × Str) :=
  match splitFirst [c] s.reverse with
  | none => none
  | some (a, b) => some (b.reverse, a.reverse)

/-- Python `s.split(c)`: split at every occurrence, keeping empties. -/
def splitAllChar (c : Char) : Str → List Str
  | [] => [[]]
  | x :: xs =>
    if x = c then [] :: splitAllChar c xs
    else match splitAllChar c xs with
      | [] => [[x]]
      | p :: ps => (x :: p) :: ps

/-- Python `s.partition(c)` reduced to (before, found?, after). -/
def partitionChar (c : Char) (s : Str) : Str × Bool × Str :=
  match splitFirst [c] s with
  | none => (s, false, [])
  | some (a, b) => (a, true, b)

/-- Python `sub in s` substring test. -/
def containsSub (sub : Str) : Str → Bool
  | [] => sub.isPrefixOf []
  | c :: cs => sub.isPrefixOf (c :: cs) || containsSub sub cs

/-- Python `s.replace(pat, rep)` for nonempty `pat`: replace all
non-overlapping occurrences, left to right (fuel-driven; each step
consumes at least one character, so `s.length` fuel suffices).  Empty
`pat` is never used by the embedded code; `replaceAll` returns `s`
unchanged for it. -/
def replaceFuel (pat rep : Str) : Nat → Str → Str
  | _, [] => []
  | 0, s => s
  | fuel + 1, c :: cs =>
    if pat.isPrefixOf (c :: cs) ∧ pat ≠ [] then
      rep ++ replaceFuel pat rep fuel ((c :: cs).drop pat.length)
    else c :: replaceFuel pat rep fuel cs

def replaceAll (s pat rep : Str) : Str :=
  if pat = [] then s else replaceFuel pat rep s.length s

/-- Python `s.lower()` (ASCII; the embedded strings are ASCII). -/
def lowerStr (s : Str) : Str := s.map Char.toLower

/-- Python `s.strip(c)`: drop all leading and trailing copies of `c`. -/
def stripChar (c : Char) (s : Str) : Str :=
  ((s.dropWhile (· = c)).reverse.dropWhile (· = c)).reverse

/-- Python `sep.join(strs)`. -/
def joinSep (sep : Str) : List Str → Str
  | [] => []
  | [x] => x
  | x :: xs => x ++ sep ++ joinSep sep xs

/-- Left-pad with `c` to width `w` (Python `'{:03d}'`-style padding). -/
def leftPad (c : Char) (w : Nat) (s : Str) : Str :=
  List.replicate (w - s.length) c ++ s

/-- Python `'{:03d}'.format(n)` for an int. -/
def intPad3 (n : Int) : Str :=
  if n < 0 then '-' :: leftPad '0' 2 (natDigits n.natAbs)
  else leftPad '0' 3 (natDigits n.natAbs)

/-! ## The URI model (protocol.py, classes ConnectInfo and URI)

`URI.__init__` resolves defaults exactly as `ConnectInfo.__init__` +
`URI.__init__` do: `use_tls` defaults to `True`, `port` to `2855`,
`transport` to `"tcp"`, `parameters` to `{}`, and an absent `session_id`
is replaced by freshly generated random hex (modelled by the explicit
`fresh` argument).  An absent host falls back to the machine IP
(`host_module.default_ip`, an external value modelled by `defaultIP`).
Credentials are opaque and ignored by `__eq__`/`__str__`; they are not
modelled. -/

structure MURI where
  use_tls : Bool
  user : Option Str
  host : Str
  port : Int
  session_id : Str
  transport : Str
  parameters : List (Str × Str)
deriving DecidableEq, Repr

/-- Modelled from the spec: `host_module.default_ip` is the machine's
default IP address, an external environment value.  Its concrete value
never matters below (all URIs considered carry an explicit host). -/
def defaultIP : Str := lit "198.51.100.1"

/-- `URI.__init__` (protocol.py): default resolution for every field. -/
def mkURI (host : Str) (use_tls : Option Bool := none) (user : Option Str := none)
    (port : Option Int := none) (session_id : Option Str := none)
    (transport : Str := lit "tcp") (parameters : List (Str × Str) := [])
    (fresh : Str := lit "0") : MURI :=
  { use_tls := use_tls.getD true
    user := user
    host := if host = [] then defaultIP else host
    port := port.getD 2855
    session_id := match session_id with | none => fresh | some s => s
    transport := transport
    parameters := parameters }

/-- `ConnectInfo.scheme`. -/
def MURI.scheme (u : MURI) : Str :=
  if u.use_tls then lit "msrps" else lit "msrp"

/-- `URI.__str__`. -/
def uriToStr (u : MURI) : Str :=
  let userPart := match u.user with
    | some us => if us = [] then [] else us ++ ['@']
    | none => []
  let portPart := if u.port = 0 then [] else ':' :: intStr u.port
  let sessionPart := if u.session_id = [] then [] else '/' :: u.session_id
  let paramParts := (u.parameters.map (fun p => ';' :: (p.1 ++ '=' :: p.2))).flatten
  u.scheme ++ lit "://" ++ userPart ++ u.host ++ portPart ++ sessionPart ++
    ';' :: u.transport ++ paramParts

/-- The host/port division the parse regex performs on the host-port
segment: the digits after the last `:` are the port when nonempty and
all-numeric; otherwise the whole segment is the host. -/
def splitPort (hp : Str) : Str × Option Int :=
  match splitLastChar ':' hp with
  | some (a, b) => if b ≠ [] ∧ b.all Char.isDigit then (a, some (digitsVal b)) else (hp, none)
  | none => (hp, none)

/-- `param.split('=')` must yield exactly a key and a value
(`dict(param.split('=') for ...)` raises otherwise). -/
def parseParamPair (p : Str) : Option (Str × Str) :=
  match splitAllChar '=' p with
  | [k, v] => some (k, v)
  | _ => none

/-- `URI.parse` (protocol.py).  The `_uri_re` regex deterministically
decomposes its input: scheme before the first `://`; the authority part
before the first following `;`; transport up to the next `;`, the rest
being parameters; inside the authority, the (optional) user before the
first `@`, the (optional) session after the first `/`, and the port as
trailing digits after the last `:` of what remains.  Scheme must be
msrp/msrps, transport must be exactly `tcp`, and each parameter must be
a single `k=v` pair.  `fresh` stands for the random session id generated
when the URI carries none. -/
def uriParse (fresh : Str) (s : Str) : Option MURI :=
  match splitFirst (lit "://") s with
  | none => none
  | some (scheme, rest) =>
    match splitFirst [';'] rest with
    | none => none
    | some (auth, tail) =>
      let tp : Str × Option Str :=
        match splitFirst [';'] tail with
        | some (t, p) => (t, some p)
        | none => (tail, none)
      let uh : Option Str × Str :=
        match splitFirst ['@'] auth with
        | some (us, r) => (some us, r)
        | none => (none, auth)
      let hs : Str × Option Str :=
        match splitFirst ['/'] uh.2 with
        | some (hpart, sPart) => (hpart, some sPart)
        | none => (uh.2, none)
      let hostport := splitPort hs.1
      if scheme ≠ lit "msrp" ∧ scheme ≠ lit "msrps" then none
      else if tp.1 ≠ lit "tcp" then none
      else
        match (match tp.2 with
          | none => some []
          | some p => (splitAllChar ';' p).mapM parseParamPair) with
        | none => none
        | some params =>
          some (mkURI hostport.1 (some (scheme = lit "msrps")) uh.1 hostport.2 hs.2
            tp.1 params fresh)

/-- `URI.__eq__` (RFC 4975 §6.1 comparison). -/
def uriEqb (a b : MURI) : Bool :=
  a.use_tls = b.use_tls && lowerStr a.host = lowerStr b.host && a.port = b.port &&
    a.session_id = b.session_id && lowerStr a.transport = lowerStr b.transport

/-! ## Header value data types -/

/-- `ByteRange` namedtuple; `stop` models the `end` field,
`none` standing for Python `None` (wire `*`). -/
structure MByteRange where
  start : Int
  stop : Option Int
  total : Option Int
deriving DecidableEq, Repr

/-- `Status` namedtuple. -/
structure MStatus where
  code : Int
  comment : Option Str
deriving DecidableEq, Repr

/-- `ContentDisposition` namedtuple (parameters as an ordered mapping). -/
structure MContentDisposition where
  disposition : Str
  parameters : List (Str × Str)
deriving DecidableEq, Repr

/-! ## UTF-8 (Python `str.encode('utf-8')` / `bytes.decode('utf-8')`) -/

/-- UTF-8 encoding of one code point. -/
def utf8EncodeNat (n : Nat) : List Nat :=
  if n < 0x80 then [n]
  else if n < 0x800 then [0xC0 + n / 64, 0x80 + n % 64]
  else if n < 0x10000 then [0xE0 + n / 4096, 0x80 + n / 64 % 64, 0x80 + n % 64]
  else [0xF0 + n / 262144, 0x80 + n / 4096 % 64, 0x80 + n / 64 % 64, 0x80 + n % 64]

/-- Is a byte a UTF-8 continuation byte? -/
def isCont (b : Nat) : Bool := 0x80 ≤ b ∧ b < 0xC0

/-- Decode one UTF-8 sequence at the head of the input, rejecting
truncated sequences, stray continuation bytes, overlong forms,
surrogates and out-of-range values — as Python's utf-8 codec does.
Returns the code point and the number of bytes consumed beyond the
first (0 to 3). -/
def utf8DecodeOne : List Nat → Option (Nat × Nat)
  | [] => none
  | b :: rest =>
    if b < 0x80 then some (b, 0)
    else if b < 0xC0 then none
    else if b < 0xE0 then
      match rest with
      | b2 :: _ =>
        if isCont b2 then
          let v := (b - 0xC0) * 64 + (b2 - 0x80)
          if 0x80 ≤ v then some (v, 1) else none
        else none
      | _ => none
    else if b < 0xF0 then
      match rest with
      | b2 :: b3 :: _ =>
        if isCont b2 ∧ isCont b3 then
          let v := (b - 0xE0) * 4096 + (b2 - 0x80) * 64 + (b3 - 0x80)
          if 0x800 ≤ v ∧ ¬(0xD800 ≤ v ∧ v ≤ 0xDFFF) then some (v, 2) else none
        else none
      | _ => none
    else if b < 0xF8 then
      match rest with
      | b2 :: b3 :: b4 :: _ =>
        if isCont b2 ∧ isCont b3 ∧ isCont b4 then
          let v := (b - 0xF0) * 262144 + (b2 - 0x80) * 4096 + (b3 - 0x80) * 64 + (b4 - 0x80)
          if 0x10000 ≤ v ∧ v < 0x110000 then some (v, 3) else none
        else none
      | _ => none
    else none

/-- Strict UTF-8 decoding of a byte sequence to code points. -/
def utf8DecodeNats : List Nat → Option (List Nat)
  | [] => some []
  | b :: rest =>
    match utf8DecodeOne (b :: rest) with
    | some (v, e) => (v :: ·) <$> utf8DecodeNats (rest.drop e)
    | none => none
  termination_by l => l.length
  decreasing_by
    simp only [List.length_drop, List.length_cons]
    omega

/-- `UTF8HeaderType.encode`: string to UTF-8 bytes. -/
def utf8Encode (s : Str) : List Nat := (s.map Char.toNat).flatMap utf8EncodeNat

/-- `UTF8HeaderType.decode`: UTF-8 bytes to a string. -/
def utf8Decode (bs : List Nat) : Option Str :=
  (utf8DecodeNats bs).map (·.map Char.ofNat)

/-! ## The `re.findall` scanner for parameter grammars

`ParameterListHeaderType` uses the regex `(\w+)=("[^"]+"|[^",]+)`,
`ContentDispositionHeaderType` the same with `;` instead of `,`
(`excl` below).  `findall` scans left to right: at each position it
matches a maximal word-character run, a literal `=`, then either a
quoted value (at least one non-quote character between quotes) or a
maximal nonempty run free of `"` and `excl`; on failure it advances one
character.  Values are reported with their quotes (stripped later by the
comprehension's `.strip('"')`). -/

/-- Python regex `\w` (the names used here are ASCII). -/
def isWordChar (c : Char) : Bool := c.isAlphanum || c = '_'

/-- One match attempt of `(\w+)=("[^"]+"|[^"X]+)` at the head of `s`,
returning key, value (with quotes if quoted) and the number of
characters the match consumed. -/
def tryMatch (excl : Char) (s : Str) : Option (Str × Str × Nat) :=
  let k := s.takeWhile isWordChar
  if k = [] then none
  else
    match s.drop k.length with
    | [] => none
    | c1 :: rest2 =>
      if c1 = '=' then
        match rest2 with
        | [] => none
        | c2 :: rest3 =>
          if c2 = '"' then
            let v := rest3.takeWhile (· ≠ '"')
            if v = [] then none
            else match rest3.drop v.length with
              | [] => none
              | c3 :: _ =>
                if c3 = '"' then some (k, '"' :: (v ++ ['"']), k.length + v.length + 3)
                else none
          else
            let v := rest2.takeWhile (fun c => c ≠ '"' ∧ c ≠ excl)
            if v = [] then none else some (k, v, k.length + v.length + 1)
      else none

/-- The scanning loop of `re.findall` for the parameter grammar:
on a match, continue after it; on failure, advance one character. -/
def findIter (excl : Char) : Str → List (Str × Str)
  | [] => []
  | c :: cs =>
    match h : tryMatch excl (c :: cs) with
    | some (k, v, n) => (k, v) :: findIter excl ((c :: cs).drop n)
    | none => findIter excl cs
  termination_by l => l.length
  decreasing_by
    · have hpos : 1 ≤ n := by
        simp only [tryMatch] at h
        repeat' split at h
        all_goals first
          | (simp only [Option.some.injEq, Prod.mk.injEq] at h; omega)
          | (exact absurd h (by simp))
      simp only [List.length_drop, List.length_cons]
      omega
    · simp

/-! ## Header value codecs (protocol.py, `*HeaderType` classes) -/

/-- `SimpleHeaderType`: identity in both directions. -/
def simpleEncode (s : Str) : Str := s

def simpleDecode (s : Str) : Str := s

/-- `IntegerHeaderType.encode` = `str(decoded)`. -/
def intEncode (n : Int) : Str := intStr n

/-- `IntegerHeaderType.decode` = `int(encoded)`: optional sign then
decimal digits (underscore/whitespace leniencies of Python `int` are
outside the texts this development evaluates it on). -/
def intDecode (s : Str) : Option Int :=
  match s with
  | [] => none
  | c :: ds =>
    if c = '-' then
      if ds ≠ [] ∧ ds.all Char.isDigit then some (-(digitsVal ds : Int)) else none
    else if c = '+' then
      if ds ≠ [] ∧ ds.all Char.isDigit then some ((digitsVal ds : Int)) else none
    else if (c :: ds).all Char.isDigit then some ((digitsVal (c :: ds) : Int)) else none

/-- `SuccessReportHeaderType.allowed_values`. -/
def successAllowed : List Str := [lit "yes", lit "no"]

/-- `FailureReportHeaderType.allowed_values`. -/
def failureAllowed : List Str := [lit "yes", lit "no", lit "partial"]

/-- `LimitedChoiceHeaderType.decode`. -/
def choiceDecode (allowed : List Str) (s : Str) : Option Str :=
  if s ∈ allowed then some s else none

/-- `ByteRangeHeaderType.encode`. -/
def byteRangeEncode (br : MByteRange) : Str :=
  intStr br.start ++ '-' ::
    ((match br.stop with | none => ['*'] | some e => intStr e) ++ '/' ::
      (match br.total with | none => ['*'] | some t => intStr t))

/-- The `\*|\d+` alternative of the byte-range regex: a literal `*`, or
a maximal nonempty digit run; the unconsumed input is returned too. -/
def parseStarOrNat (r : Str) : Option (Option Int × Str) :=
  match r with
  | '*' :: rest => some (none, rest)
  | r =>
    let es := r.takeWhile Char.isDigit
    if es = [] then none else some (some (digitsVal es : Int), r.drop es.length)

/-- `ByteRangeHeaderType.decode`: the regex
`(?P<start>\d+)-(?P<end>\*|\d+)/(?P<total>\*|\d+)` applied with
`re.match` — anchored at the start, trailing input ignored. -/
def byteRangeDecode (s : Str) : Option MByteRange := do
  let ds := s.takeWhile Char.isDigit
  if ds = [] then none
  else match s.drop ds.length with
    | '-' :: r1 => do
      let (stop, r2) ← parseStarOrNat r1
      match r2 with
      | '/' :: r3 => do
        let (total, _) ← parseStarOrNat r3
        some ⟨(digitsVal ds : Int), stop, total⟩
      | _ => none
    | _ => none

/-- `StatusHeaderType.encode`. -/
def statusEncode (st : MStatus) : Str :=
  match st.comment with
  | none => lit "000 " ++ intPad3 st.code
  | some c => lit "000 " ++ intPad3 st.code ++ ' ' :: c

/-- `StatusHeaderType.decode`. -/
def statusDecode (s : Str) : Option MStatus :=
  let (ns, sep, rest) := partitionChar ' ' s
  if ns ≠ lit "000" ∨ sep = false then none
  else
    let (code, _, comment) := partitionChar ' ' rest
    if code.all Char.isDigit ∧ code ≠ [] ∧ code.length = 3 then
      some ⟨(digitsVal code : Int), if comment = [] then none else some comment⟩
    else none

/-- The parameter-pair decoding shared by `ParameterListHeaderType` and
`ContentDispositionHeaderType`: scan, then strip quotes off each value. -/
def paramScan (excl : Char) (s : Str) : List (Str × Str) :=
  (findIter excl s).map (fun p => (p.1, stripChar '"' p.2))

/-- `ParameterListHeaderType.decode`. -/
def paramListDecode (s : Str) : List (Str × Str) := paramScan ',' s

/-- `ParameterListHeaderType.encode`. -/
def paramListEncode (ps : List (Str × Str)) : Str :=
  joinSep (lit ", ") (ps.map (fun p => p.1 ++ '=' :: '"' :: (p.2 ++ ['"'])))

/-- `DigestHeaderType.encode`. -/
def digestEncode (ps : List (Str × Str)) : Str := lit "Digest " ++ paramListEncode ps

/-- `DigestHeaderType.decode`. -/
def digestDecode (s : Str) : Option (List (Str × Str)) :=
  let (alg, sep, parameters) := partitionChar ' ' s
  if alg ≠ lit "Digest" ∨ sep = false then none
  else some (paramListDecode parameters)

/-- `ContentDispositionHeaderType.encode`. -/
def dispEncode (cd : MContentDisposition) : Str :=
  joinSep (lit "; ")
    (cd.disposition :: cd.parameters.map (fun p => p.1 ++ '=' :: '"' :: (p.2 ++ ['"'])))

/-- `ContentDispositionHeaderType.decode`. -/
def dispDecode (s : Str) : Option MContentDisposition :=
  let (disposition, _, parameters) := partitionChar ';' s
  if disposition = [] then none
  else some ⟨disposition, paramScan ';' parameters⟩

/-- `URIHeaderType.encode`: space-joined serialized URIs. -/
def uriListEncode (us : List MURI) : Str :=
  joinSep [' '] (us.map uriToStr)

/-- `URIHeaderType.decode`: split on single spaces, parse each element
(`fresh` models the random session ids for URIs that carry none). -/
def uriListDecode (fresh : Str) (s : Str) : Option (List MURI) :=
  (splitAllChar ' ' s).mapM (uriParse fresh)

/-! ## The chunk model (protocol.py, class MSRPData)

Headers are modelled at the decoded level: an association list from
header names to decoded values (`HVal`), mirroring the
`HeaderMapping` of `MSRPHeader` objects whose `decoded` values the
transport-layer code consults.  `vNone` is a header whose decoded value
is Python `None` (as `MessageIDHeader(None)` produces). -/

inductive HVal where
  | vStr (s : Str)
  | vInt (n : Int)
  | vUris (us : List MURI)
  | vByteRange (br : MByteRange)
  | vStatus (st : MStatus)
  | vDisp (cd : MContentDisposition)
  | vParams (ps : List (Str × Str))
  | vNone
deriving DecidableEq, Repr

/-- Lookup by header name (`headers.get(name, MissingHeader)`). -/
def headersGet (nm : Str) (hs : List (Str × HVal)) : Option HVal :=
  (hs.find? (fun p => p.1 = nm)).map (·.2)

/-- `headers[name] = header` (dict update: replace or append). -/
def headersSet (nm : Str) (v : HVal) (hs : List (Str × HVal)) : List (Str × HVal) :=
  if (hs.find? (fun p => p.1 = nm)).isSome then
    hs.map (fun p => if p.1 = nm then (nm, v) else p)
  else hs ++ [(nm, v)]

/-- The chunk container (`MSRPData`). -/
structure MSRPData where
  transaction_id : Str
  method : Option Str
  code : Option Int
  comment : Option Str
  headers : List (Str × HVal)
  data : Str
  contflag : Str
  first_line : Str
deriving DecidableEq, Repr

/-- The first line computed by `MSRPData.__init__`. -/
def firstLine (tid : Str) (method : Option Str) (code : Option Int)
    (comment : Option Str) : Str :=
  match method with
  | some m => lit "MSRP " ++ tid ++ ' ' :: m
  | none =>
    match code, comment with
    | some c, none => lit "MSRP " ++ tid ++ ' ' :: intPad3 c
    | some c, some cm => lit "MSRP " ++ tid ++ ' ' :: intPad3 c ++ ' ' :: cm
    | none, _ => []   -- unreachable: __init__ requires method or code

/-- `MSRPData.__init__` with its validity checks (`ValueError`s are
modelled as `Except.error`). -/
def mkMSRPData (tid : Str) (method : Option Str := none) (code : Option Int := none)
    (comment : Option Str := none) (headers : List (Str × HVal) := [])
    (data : Str := []) (contflag : Str := lit "$") : Except Unit MSRPData :=
  if method = none ∧ code = none then .error ()
  else if method ≠ none ∧ code ≠ none then .error ()
  else if code = none ∧ comment ≠ none then .error ()
  else .ok
    { transaction_id := tid, method := method, code := code, comment := comment
      headers := headers, data := data, contflag := contflag
      first_line := firstLine tid method code comment }

/-- `add_header`. -/
def addHeader (c : MSRPData) (nm : Str) (v : HVal) : MSRPData :=
  { c with headers := headersSet nm v c.headers }

/-- `MSRPData.from_path` (decoded, `None` when missing). -/
def fromPath (c : MSRPData) : Option (List MURI) :=
  match headersGet (lit "From-Path") c.headers with
  | some (.vUris us) => some us
  | _ => none

/-- `MSRPData.to_path`. -/
def toPath (c : MSRPData) : Option (List MURI) :=
  match headersGet (lit "To-Path") c.headers with
  | some (.vUris us) => some us
  | _ => none

/-- `MSRPData.message_id`. -/
def messageId (c : MSRPData) : Option Str :=
  match headersGet (lit "Message-ID") c.headers with
  | some (.vStr s) => some s
  | _ => none

/-- `MSRPData.byte_range`. -/
def byteRange (c : MSRPData) : Option MByteRange :=
  match headersGet (lit "Byte-Range") c.headers with
  | some (.vByteRange br) => some br
  | _ => none

/-- `MSRPData.failure_report`: the decoded Failure-Report header, with
falsy values (absent header, empty string) defaulting to `'yes'`. -/
def failureReport (c : MSRPData) : Str :=
  match headersGet (lit "Failure-Report") c.headers with
  | some (.vStr s) => if s = [] then lit "yes" else s
  | _ => lit "yes"

/-- `MSRPData.success_report`: same with default `'no'`. -/
def successReport (c : MSRPData) : Str :=
  match headersGet (lit "Success-Report") c.headers with
  | some (.vStr s) => if s = [] then lit "no" else s
  | _ => lit "no"

/-- `MSRPData.size`. -/
def chunkSize (c : MSRPData) : Nat := c.data.length

/-! `MSRPData.__setattr__`: `method`, `code`, `comment` and `headers`
are in `__immutable__`, so overwriting them after construction raises
`AttributeError`; assigning `transaction_id` rewrites the first line
with `str.replace` (all occurrences of the old id!) before storing the
new id. -/

/-- Post-construction `chunk.method = m` (always raises). -/
def setMethod (c : MSRPData) (m : Option Str) : Except Unit MSRPData := .error ()

/-- Post-construction `chunk.code = n` (always raises). -/
def setCode (c : MSRPData) (n : Option Int) : Except Unit MSRPData := .error ()

/-- Post-construction `chunk.transaction_id = t`. -/
def setTransactionId (c : MSRPData) (t : Str) : MSRPData :=
  { c with first_line := replaceAll c.first_line c.transaction_id t
           transaction_id := t }

/-! ## transport.py: response, report and send-request synthesis -/

/-- `make_response` (transport.py).  `Except.error` models the
`ChunkParseError` raised on a missing To-Path/From-Path header (and the
`IndexError` an empty path would raise); `Option` in the result is the
`None` returned when the response is suppressed. -/
def makeResponse (chunk : MSRPData) (code : Int) (comment : Str) :
    Except Unit (Option MSRPData) :=
  if failureReport chunk = lit "no" then .ok none
  else if failureReport chunk = lit "partial" ∧ code = 200 then .ok none
  else
    match toPath chunk, fromPath chunk with
    | some (t0 :: _), some (f0 :: frest) =>
      let to_path := if chunk.method = some (lit "SEND") then [f0] else f0 :: frest
      let from_path := [t0]
      match mkMSRPData chunk.transaction_id none (some code) (some comment) with
      | .ok r => .ok (some (addHeader (addHeader r (lit "To-Path") (.vUris to_path))
          (lit "From-Path") (.vUris from_path)))
      | .error e => .error e
    | _, _ => .error ()

/-- `make_report` (transport.py).  `tid` models the fresh random 64-bit
hex transaction id. -/
def makeReport (tid : Str) (chunk : MSRPData) (code : Int) (comment : Option Str) :
    Except Unit (Option MSRPData) :=
  if successReport chunk = lit "yes" ∨
      ((failureReport chunk = lit "yes" ∨ failureReport chunk = lit "partial") ∧ code ≠ 200) then
    match fromPath chunk, toPath chunk with
    | some fp, some (t0 :: _) =>
      match mkMSRPData tid (some (lit "REPORT")) with
      | .ok r0 =>
        let r1 := addHeader r0 (lit "To-Path") (.vUris fp)
        let r2 := addHeader r1 (lit "From-Path") (.vUris [t0])
        let r3 := addHeader r2 (lit "Status") (.vStatus ⟨code, comment⟩)
        let r4 := addHeader r3 (lit "Message-ID")
          (match messageId chunk with | some m => .vStr m | none => .vNone)
        let start := match byteRange chunk with
          | none => (1 : Int)
          | some br => br.start
        let total := match byteRange chunk with
          | none => some (chunkSize chunk : Int)
          | some br => br.total
        let r5 := addHeader r4 (lit "Byte-Range")
          (.vByteRange ⟨start, some (start + (chunkSize chunk : Int) - 1), total⟩)
        .ok (some r5)
      | .error e => .error e
    | _, _ => .error ()
  else .ok none

/-- `MSRPTransport.make_request`: fresh transaction id `tid`,
To-Path = `local_path + remote_path + [remote_uri]`,
From-Path = `[local_uri]`. -/
def makeRequest (tid : Str) (localPath remotePath : List MURI)
    (remoteUri localUri : MURI) (method : Str) : Except Unit MSRPData :=
  match mkMSRPData tid (some method) with
  | .ok c => .ok (addHeader (addHeader c (lit "To-Path")
      (.vUris (localPath ++ remotePath ++ [remoteUri]))) (lit "From-Path") (.vUris [localUri]))
  | .error e => .error e

/-- `MSRPTransport.make_send_request`.  `tid` and `mid` model the two
fresh random ids; `startv`/`endv`/`lengthv` are the keyword arguments
(`none` = Python default). -/
def makeSendRequest (tid mid : Str) (localPath remotePath : List MURI)
    (remoteUri localUri : MURI) (data : Str)
    (startv : Int := 1) (endv : Option Int := none) (lengthv : Option Int := none) :
    Except Unit MSRPData :=
  match makeRequest tid localPath remotePath remoteUri localUri (lit "SEND") with
  | .ok chunk =>
    let e := endv.getD (startv - 1 + data.length)
    let len := lengthv.getD (startv - 1 + data.length)
    let contflag := if e = len then lit "$" else lit "+"
    let c1 := addHeader chunk (lit "Byte-Range")
      (.vByteRange ⟨startv, if len ≤ 2048 then some e else none, some len⟩)
    let c2 := addHeader c1 (lit "Message-ID") (.vStr mid)
    .ok { c2 with data := data, contflag := contflag }
  | .error e => .error e

/-! ## transport.py: `read_chunk` over the framer's event queue -/

/-- The framer events (`data_start`, `data_end`, `data_write`,
`data_final_write` sent into the transport's queue). -/
inductive FramerEvent where
  | dataStart (c : MSRPData)
  | dataWrite (s : Str)
  | dataFinalWrite (s : Str)
  | dataEnd (flag : Str)
deriving DecidableEq, Repr

/-- Final stage of `read_chunk`: the event after the writes must be
`data_end` and its flag must pass `param not in "$+#"` (a substring
test). -/
def readChunkEnd (c : MSRPData) (dataAcc : Str) : List FramerEvent →
    Option (Except Unit MSRPData)
  | [] => none
  | .dataEnd f :: _ =>
    if containsSub f (lit "$+#") then
      some (.ok { c with data := dataAcc, contflag := f })
    else some (.error ())
  | _ :: _ => some (.error ())

/-- The `while func == data_write` loop of `read_chunk`, then the
optional final write.  The size check runs only after ordinary
writes. -/
def readChunkLoop (maxSize : Nat) (c : MSRPData) (dataAcc : Str) :
    List FramerEvent → Option (Except Unit MSRPData)
  | [] => none
  | .dataWrite s :: rest =>
    let d := dataAcc ++ s
    if d.length > maxSize then some (.error ())
    else readChunkLoop maxSize c d rest
  | .dataFinalWrite s :: rest => readChunkEnd c (dataAcc ++ s) rest
  | evs => readChunkEnd c dataAcc evs

/-- `MSRPTransport.read_chunk(max_size)` consuming the queued framer
events; `none` models blocking forever on an exhausted queue, and
`Except.error` the `ChunkParseError` raised after dropping the
connection. -/
def readChunk (maxSize : Nat) : List FramerEvent → Option (Except Unit MSRPData)
  | [] => none
  | .dataStart c :: rest => readChunkLoop maxSize c c.data rest
  | _ :: _ => some (.error ())

/-! ## session.py: `contains_mime_type` -/

/-- `contains_mime_type(mimetypelist, mimetype)` (session.py). -/
def containsMimeType (mimetypelist : List Str) (mimetype : Str) : Bool :=
  let mt := (partitionChar ';' (lowerStr mimetype)).1
  mimetypelist.any (fun pat =>
    let p := lowerStr pat
    p = ['*'] || p = mt || ((lit "/*").isSuffixOf p && p.dropLast.isPrefixOf mt))

/-! ## Legality predicates for the round-trip statements -/

/-- A `Status` value constructible as the data model intends: a
three-digit code and a comment that is either absent or nonempty. -/
def LegalStatus (st : MStatus) : Prop :=
  0 ≤ st.code ∧ st.code ≤ 999 ∧ st.comment ≠ some []

instance : DecidablePred LegalStatus := fun st => by
  unfold LegalStatus; infer_instance

/-- A `ByteRange` whose numeric components are non-negative (they come
from `int(...)` over digit strings on the wire and from sizes/offsets
in the code). -/
def LegalByteRange (br : MByteRange) : Prop :=
  0 ≤ br.start ∧ 0 ≤ br.stop.getD 0 ∧ 0 ≤ br.total.getD 0

instance : DecidablePred LegalByteRange := fun br => by
  unfold LegalByteRange; infer_instance

/-- The encoded form of one `k="v"` pair. -/
def encPair (p : Str × Str) : Str := p.1 ++ '=' :: '"' :: (p.2 ++ ['"'])

/-- Keys are nonempty word-character runs; values nonempty and
quote-free — the shapes the parameter grammar can faithfully carry. -/
def LegalPairs (ps : List (Str × Str)) : Prop :=
  ∀ p ∈ ps, p.1 ≠ [] ∧ (∀ c ∈ p.1, isWordChar c) ∧ p.2 ≠ [] ∧ '"' ∉ p.2

instance : DecidablePred LegalPairs := fun ps => by
  unfold LegalPairs; infer_instance

/-- A disposition string the content-disposition grammar can carry:
nonempty and free of `;`. -/
def LegalDisposition (d : Str) : Prop := d ≠ [] ∧ ';' ∉ d

instance : DecidablePred LegalDisposition := fun d => by
  unfold LegalDisposition; infer_instance

/-- Characters a host (and user-adjacent) field must avoid so that the
parse regex re-finds the field boundaries. -/
def noHostChar (c : Char) : Bool := c ≠ ':' && c ≠ '/' && c ≠ ';' && c ≠ '@' && c ≠ ' '

/-- Characters the user and session fields must avoid. -/
def noAuthChar (c : Char) : Bool := c ≠ '@' && c ≠ ';' && c ≠ ' '

/-- Characters parameter keys and values must avoid. -/
def noParamChar (c : Char) : Bool := c ≠ ';' && c ≠ '=' && c ≠ '@' && c ≠ ' '

/-- A URI built from valid fields: nonempty host without separators, a
positive port, nonempty session id, transport exactly `tcp` (the only
value `URI.parse` accepts), and parameters free of the reserved
characters. -/
def validMURI (u : MURI) : Bool :=
  u.host ≠ [] && u.host.all noHostChar &&
  (match u.user with | none => true | some us => us ≠ [] && us.all noAuthChar) &&
  (0 < u.port : Bool) &&
  u.session_id ≠ [] && u.session_id.all noAuthChar &&
  u.transport = lit "tcp" &&
  u.parameters.all (fun p => p.1.all noParamChar && p.2.all noParamChar)

/-! # Lemmas

## Decimal digits -/

theorem digitCharM_toNat {n : Nat} (h : n < 10) : (digitCharM n).toNat = 48 + n := by
  interval_cases n <;> decide

theorem digitCharM_isDigit {n : Nat} (h : n < 10) : (digitCharM n).isDigit := by
  interval_cases n <;> decide

theorem natDigitsAux_fuel {fuel1 fuel2 n : Nat} (h1 : n < fuel1) (h2 : n < fuel2) :
    natDigitsAux fuel1 n = natDigitsAux fuel2 n := by
  induction n using Nat.strong_induction_on generalizing fuel1 fuel2 with
  | _ n ih =>
    rcases fuel1 with _ | f1
    · omega
    · rcases fuel2 with _ | f2
      · omega
      · unfold natDigitsAux
        split
        · rfl
        · exact congrArg (· ++ [digitCharM (n % 10)])
            (ih (n / 10) (Nat.div_lt_self (by omega) (by omega))
              (show n / 10 < f1 by omega) (show n / 10 < f2 by omega))

/-- The recurrence `natDigits` satisfies. -/
theorem natDigits_eq (n : Nat) :
    natDigits n = if n < 10 then [digitCharM n]
      else natDigits (n / 10) ++ [digitCharM (n % 10)] := by
  unfold natDigits
  conv_lhs => rw [natDigitsAux]
  split
  · rfl
  · exact congrArg (· ++ [digitCharM (n % 10)])
      (natDigitsAux_fuel (show n / 10 < n by omega) (show n / 10 < n / 10 + 1 by omega))

theorem natDigits_ne_nil (n : Nat) : natDigits n ≠ [] := by
  rw [natDigits_eq]
  split <;> simp

theorem natDigits_all_digit (n : Nat) : ∀ c ∈ natDigits n, c.isDigit := by
  induction n using Nat.strong_induction_on with
  | _ n ih =>
    rw [natDigits_eq]
    split
    · simp only [List.mem_singleton]
      rintro c rfl
      exact digitCharM_isDigit (by omega)
    · intro c hc
      rcases List.mem_append.1 hc with h | h
      · exact ih (n / 10) (Nat.div_lt_self (by omega) (by omega)) c h
      · simp only [List.mem_singleton] at h
        subst h
        exact digitCharM_isDigit (Nat.mod_lt _ (by omega))

theorem digitsVal_append_singleton (a : Str) (c : Char) :
    digitsVal (a ++ [c]) = 10 * digitsVal a + (c.toNat - 48) := by
  unfold digitsVal
  rw [List.foldl_append]
  simp [Nat.mul_comm]

theorem digitsVal_natDigits (n : Nat) : digitsVal (natDigits n) = n := by
  induction n using Nat.strong_induction_on with
  | _ n ih =>
    rw [natDigits_eq]
    split
    · rename_i h
      simp [digitsVal, digitCharM_toNat h]
    · rename_i h
      rw [digitsVal_append_singleton, ih (n / 10) (Nat.div_lt_self (by omega) (by omega)),
        digitCharM_toNat (Nat.mod_lt _ (by omega))]
      omega

theorem natDigits_length_le {n k : Nat} (hk : 1 ≤ k) (h : n < 10 ^ k) :
    (natDigits n).length ≤ k := by
  induction k generalizing n with
  | zero => omega
  | succ k ih =>
    rw [natDigits_eq]
    split
    · simp
    · rename_i hn
      rcases Nat.eq_or_lt_of_le hk with hk1 | hk2
      · exfalso
        rw [← hk1] at h
        simp [pow_succ, pow_zero] at h
        omega
      · have : n / 10 < 10 ^ k := by
          rw [Nat.div_lt_iff_lt_mul (by omega)]
          calc n < 10 ^ (k + 1) := h
          _ = 10 ^ k * 10 := by ring
        simp only [List.length_append, List.length_singleton]
        have := ih (by omega) this
        omega

theorem digitsVal_replicate_zero (m : Nat) (s : Str) :
    digitsVal (List.replicate m '0' ++ s) = digitsVal s := by
  induction m with
  | zero => simp
  | succ m ih =>
    rw [List.replicate_succ, List.cons_append]
    unfold digitsVal at *
    simpa using ih

theorem replicate_zero_all_digit (m : Nat) : ∀ c ∈ List.replicate m '0', c.isDigit := by
  intro c hc
  rw [List.eq_of_mem_replicate hc]
  decide

/-- `natDigits` over a positive value never starts with a non-digit, so
in particular these strings cannot collide with `'-'`, `'+'`, `'*'`. -/
theorem natDigits_head_digit (n : Nat) {c : Char} {cs : Str}
    (h : natDigits n = c :: cs) : c.isDigit := by
  have := natDigits_all_digit n c
  rw [h] at this
  exact this (by simp)

/-! ## Splitting -/

theorem splitFirst_cons_eq {sep s : Str} {c : Char} {cs : Str} (hs : s = c :: cs)
    (hpre : sep.isPrefixOf s) :
    splitFirst sep s = some ([], s.drop sep.length) := by
  subst hs
  unfold splitFirst
  simp [hpre]

theorem splitFirst_cons_ne {sep : Str} {c : Char} {cs : Str}
    (hpre : ¬ sep.isPrefixOf (c :: cs)) :
    splitFirst sep (c :: cs) = (splitFirst sep cs).map (fun p => (c :: p.1, p.2)) := by
  conv_lhs => rw [splitFirst]
  simp [hpre]

theorem not_isPrefixOf_cons_of_head_ne {c x : Char} {r l : Str} (h : c ≠ x) :
    ¬ (c :: r).isPrefixOf (x :: l) := by
  simp [List.isPrefixOf]
  intro hcx
  exact absurd hcx h

/-- First-occurrence split of `a ++ sep ++ b` when `sep`'s first
character does not occur in `a`. -/
theorem splitFirst_append {c : Char} {r a b : Str} (hc : c ∉ a) :
    splitFirst (c :: r) (a ++ ((c :: r) ++ b)) = some (a, b) := by
  induction a with
  | nil =>
    rw [List.nil_append]
    have hpre : (c :: r).isPrefixOf ((c :: r) ++ b) := by
      have : (c :: r) <+: (c :: r) ++ b := List.prefix_append _ _
      exact List.isPrefixOf_iff_prefix.2 this
    rw [@splitFirst_cons_eq (c :: r) ((c :: r) ++ b) c (r ++ b) (by simp) hpre]
    simp
  | cons x a' ih =>
    have hcx : c ≠ x := by
      intro hh; exact hc (hh ▸ List.mem_cons_self x a')
    rw [List.cons_append]
    rw [splitFirst_cons_ne (not_isPrefixOf_cons_of_head_ne hcx)]
    rw [ih (fun hmem => hc (List.mem_cons_of_mem x hmem))]
    rfl

theorem splitFirst_none {c : Char} {r s : Str} (hc : c ∉ s) :
    splitFirst (c :: r) s = none := by
  induction s with
  | nil => rfl
  | cons x s' ih =>
    have hcx : c ≠ x := fun hh => hc (hh ▸ List.mem_cons_self x s')
    rw [splitFirst_cons_ne (not_isPrefixOf_cons_of_head_ne hcx)]
    rw [ih (fun hmem => hc (List.mem_cons_of_mem x hmem))]
    rfl

/-- Single-character first split. -/
theorem splitFirst_single {c : Char} {a b : Str} (hc : c ∉ a) :
    splitFirst [c] (a ++ c :: b) = some (a, b) := by
  have := splitFirst_append (c := c) (r := []) (a := a) (b := b) hc
  simpa using this

theorem splitLastChar_append {c : Char} {a b : Str} (hc : c ∉ b) :
    splitLastChar c (a ++ c :: b) = some (a, b) := by
  unfold splitLastChar
  have : (a ++ c :: b).reverse = b.reverse ++ c :: a.reverse := by
    simp
  rw [this, splitFirst_single (by simpa using hc)]
  simp

theorem splitLastChar_none {c : Char} {s : Str} (hc : c ∉ s) :
    splitLastChar c s = none := by
  unfold splitLastChar
  rw [splitFirst_none (by simpa using hc)]

theorem splitAllChar_no_sep {c : Char} {s : Str} (hc : c ∉ s) :
    splitAllChar c s = [s] := by
  induction s with
  | nil => rfl
  | cons x s' ih =>
    have hcx : x ≠ c := fun hh => hc (hh ▸ List.mem_cons_self x s')
    unfold splitAllChar
    rw [if_neg hcx, ih (fun hmem => hc (List.mem_cons_of_mem x hmem))]

theorem splitAllChar_append {c : Char} {a b : Str} (hc : c ∉ a) :
    splitAllChar c (a ++ c :: b) = a :: splitAllChar c b := by
  induction a with
  | nil =>
    rw [List.nil_append]
    conv_lhs => rw [splitAllChar]
    simp
  | cons x a' ih =>
    have hcx : x ≠ c := fun hh => hc (hh ▸ List.mem_cons_self x a')
    rw [List.cons_append]
    conv_lhs => rw [splitAllChar]
    rw [if_neg hcx, ih (fun hmem => hc (List.mem_cons_of_mem x hmem))]

theorem partitionChar_found {c : Char} {a b : Str} (hc : c ∉ a) :
    partitionChar c (a ++ c :: b) = (a, true, b) := by
  unfold partitionChar
  rw [splitFirst_single hc]

theorem partitionChar_not_found {c : Char} {s : Str} (hc : c ∉ s) :
    partitionChar c s = (s, false, []) := by
  unfold partitionChar
  rw [splitFirst_none (by simpa using hc)]

/-! ## `replace` -/

theorem replaceFuel_of_not_contains {pat rep s : Str} {fuel : Nat}
    (h : containsSub pat s = false) (hf : s.length ≤ fuel) :
    replaceFuel pat rep fuel s = s := by
  induction s generalizing fuel with
  | nil => cases fuel <;> rfl
  | cons c cs ih =>
    unfold containsSub at h
    rw [Bool.or_eq_false_iff] at h
    rcases fuel with _ | f
    · simp at hf
    · conv_lhs => rw [replaceFuel]
      rw [if_neg (by
        rintro ⟨hpre, -⟩
        rw [hpre] at h
        exact absurd h.1 (by simp))]
      rw [ih h.2 (by simp at hf; omega)]

theorem replaceFuel_append {pat rep a b : Str} {fuel : Nat} (hpat : pat ≠ [])
    (ha : ∀ i < a.length, ¬ pat.isPrefixOf ((a ++ (pat ++ b)).drop i))
    (hb : containsSub pat b = false) (hf : (a ++ (pat ++ b)).length ≤ fuel) :
    replaceFuel pat rep fuel (a ++ (pat ++ b)) = a ++ (rep ++ b) := by
  induction a generalizing fuel with
  | nil =>
    rw [List.nil_append] at hf ⊢
    rcases hp : pat with _ | ⟨p0, pr⟩
    · exact absurd hp hpat
    · subst hp
      rcases fuel with _ | f
      · simp at hf
      · rw [show (p0 :: pr) ++ b = p0 :: (pr ++ b) from rfl]
        conv_lhs => rw [replaceFuel]
        rw [if_pos ⟨by
          rw [show p0 :: (pr ++ b) = (p0 :: pr) ++ b from rfl]
          exact List.isPrefixOf_iff_prefix.2 (List.prefix_append _ _), by simp⟩]
        rw [show p0 :: (pr ++ b) = (p0 :: pr) ++ b from rfl, List.drop_left]
        rw [replaceFuel_of_not_contains hb (by simp at hf; omega)]
        simp
  | cons x a' ih =>
    rcases fuel with _ | f
    · simp at hf
    · rw [List.cons_append]
      conv_lhs => rw [replaceFuel]
      rw [if_neg (by
        rintro ⟨hpre, -⟩
        have := ha 0 (by simp)
        rw [List.drop_zero, List.cons_append] at this
        exact this hpre)]
      rw [ih (fun i hi => by
        have := ha (i + 1) (by simpa using Nat.succ_lt_succ hi)
        rw [List.cons_append] at this
        simpa using this) (by
        rw [List.cons_append] at hf
        simp at hf ⊢
        omega)]
      rfl

theorem replaceAll_append {pat rep a b : Str} (hpat : pat ≠ [])
    (ha : ∀ i < a.length, ¬ pat.isPrefixOf ((a ++ (pat ++ b)).drop i))
    (hb : containsSub pat b = false) :
    replaceAll (a ++ (pat ++ b)) pat rep = a ++ (rep ++ b) := by
  unfold replaceAll
  rw [if_neg hpat]
  exact replaceFuel_append hpat ha hb (le_refl _)

/-! ## `strip` -/

theorem stripChar_quoted {v : Str} (hv : v ≠ []) (hq : '"' ∉ v) :
    stripChar '"' ('"' :: (v ++ ['"'])) = v := by
  unfold stripChar
  rcases v with _ | ⟨h0, t0⟩
  · exact absurd rfl hv
  · have hh0 : h0 ≠ '"' := fun hh => hq (hh ▸ List.mem_cons_self h0 t0)
    rw [List.dropWhile_cons_of_pos (by simp), List.cons_append,
      List.dropWhile_cons_of_neg (by simpa using hh0)]
    have hrev : (h0 :: (t0 ++ ['"'])).reverse = '"' :: (h0 :: t0).reverse := by simp
    rw [hrev, List.dropWhile_cons_of_pos (by simp)]
    rcases hrev2 : (h0 :: t0).reverse with _ | ⟨r0, rr⟩
    · exfalso
      have := congrArg List.length hrev2
      simp at this
    · have hr0 : r0 ∈ h0 :: t0 := by
        have : r0 ∈ (h0 :: t0).reverse := by rw [hrev2]; simp
        rw [List.mem_reverse] at this
        exact this
      have : r0 ≠ '"' := fun hh => hq (hh ▸ hr0)
      rw [List.dropWhile_cons_of_neg (by simpa using this), ← hrev2]
      simp

/-! ## `takeWhile` over an assembled prefix -/

theorem takeWhile_append_eq {p : Char → Bool} {a : Str} {x : Char} {b : Str}
    (ha : ∀ c ∈ a, p c) (hx : ¬ p x) :
    (a ++ x :: b).takeWhile p = a := by
  induction a with
  | nil =>
    rw [List.nil_append]
    exact List.takeWhile_cons_of_neg (l := b) (by simpa using hx)
  | cons c a' ih =>
    rw [List.cons_append, List.takeWhile_cons_of_pos (ha c (by simp))]
    rw [ih (fun c hc => ha c (List.mem_cons_of_mem _ hc))]

theorem takeWhile_all {p : Char → Bool} {a : Str} (ha : ∀ c ∈ a, p c) :
    a.takeWhile p = a := by
  induction a with
  | nil => rfl
  | cons c a' ih =>
    rw [List.takeWhile_cons_of_pos (ha c (by simp)), ih (fun c hc => ha c (List.mem_cons_of_mem _ hc))]

theorem isDigit_ne_chars {c : Char} (h : c.isDigit) :
    c ≠ '-' ∧ c ≠ '+' ∧ c ≠ '*' ∧ c ≠ ' ' ∧ c ≠ '/' ∧ c ≠ ':' ∧ c ≠ ';' ∧ c ≠ '@' ∧ c ≠ '=' := by
  simp only [Char.isDigit] at h
  refine ⟨?_, ?_, ?_, ?_, ?_, ?_, ?_, ?_, ?_⟩ <;>
    (rintro rfl; revert h; decide)

/-! ## Integer codec round trip -/

theorem intDecode_cons (c : Char) (ds : Str) :
    intDecode (c :: ds) =
      (if c = '-' then
        if ds ≠ [] ∧ ds.all Char.isDigit then some (-(digitsVal ds : Int)) else none
      else if c = '+' then
        if ds ≠ [] ∧ ds.all Char.isDigit then some ((digitsVal ds : Int)) else none
      else if (c :: ds).all Char.isDigit then some ((digitsVal (c :: ds) : Int)) else none) := rfl

theorem intDecode_intStr (n : Int) : intDecode (intStr n) = some n := by
  unfold intStr
  by_cases hn : n < 0
  · rw [if_pos hn, intDecode_cons, if_pos rfl, if_pos ⟨natDigits_ne_nil _, by
      rw [List.all_eq_true]
      exact fun c hc => natDigits_all_digit _ c hc⟩]
    rw [digitsVal_natDigits]
    congr 1
    omega
  · rw [if_neg hn]
    rcases hd : natDigits n.natAbs with _ | ⟨c, cs⟩
    · exact absurd hd (natDigits_ne_nil _)
    · have hcd : c.isDigit := natDigits_head_digit _ hd
      have hne := isDigit_ne_chars hcd
      rw [intDecode_cons, if_neg hne.1, if_neg hne.2.1, if_pos (by
        rw [← hd, List.all_eq_true]
        exact fun c hc => natDigits_all_digit _ c hc)]
      rw [← hd, digitsVal_natDigits, Int.natAbs_of_nonneg (by omega)]

/-! ## Status codec round trip -/

theorem intPad3_spec {n : Int} (h0 : 0 ≤ n) (h999 : n ≤ 999) :
    (∀ c ∈ intPad3 n, c.isDigit) ∧ (intPad3 n).length = 3 ∧
      digitsVal (intPad3 n) = n.natAbs := by
  unfold intPad3
  rw [if_neg (by omega)]
  unfold leftPad
  have hlen : (natDigits n.natAbs).length ≤ 3 :=
    natDigits_length_le (by omega) (by
      have : n.natAbs ≤ 999 := by omega
      omega)
  refine ⟨?_, ?_, ?_⟩
  · intro c hc
    rcases List.mem_append.1 hc with h | h
    · exact replicate_zero_all_digit _ c h
    · exact natDigits_all_digit _ c h
  · simp only [List.length_append, List.length_replicate]
    omega
  · rw [digitsVal_replicate_zero, digitsVal_natDigits]

theorem statusDecode_statusEncode {st : MStatus} (h : LegalStatus st) :
    statusDecode (statusEncode st) = some st := by
  obtain ⟨code, cmo⟩ := st
  obtain ⟨h0, h999, hcm⟩ := h
  simp only at h0 h999 hcm
  obtain ⟨hdig, hlen, hval⟩ := intPad3_spec h0 h999
  have hnospace : ' ' ∉ intPad3 code := fun hsp =>
    absurd rfl (isDigit_ne_chars (hdig _ hsp)).2.2.2.1
  have hne : intPad3 code ≠ [] := by
    intro hnil; rw [hnil] at hlen; simp at hlen
  have hcode : (digitsVal (intPad3 code) : Int) = code := by
    rw [hval]; exact Int.natAbs_of_nonneg h0
  have hall : List.all (intPad3 code) Char.isDigit = true := by
    rw [List.all_eq_true]; exact fun c hc => hdig c hc
  rcases cmo with _ | cm
  · unfold statusEncode statusDecode
    simp only
    rw [show lit "000 " ++ intPad3 code = lit "000" ++ ' ' :: intPad3 code by simp [lit]]
    rw [partitionChar_found (by decide)]
    simp only
    rw [if_neg (by simp)]
    rw [partitionChar_not_found hnospace]
    simp only
    rw [if_pos ⟨hall, hne, hlen⟩, hcode]
    simp
  · have hcmne : cm ≠ [] := fun hnil => hcm (by rw [hnil])
    unfold statusEncode statusDecode
    simp only
    rw [show lit "000 " ++ intPad3 code ++ ' ' :: cm =
      lit "000" ++ ' ' :: (intPad3 code ++ ' ' :: cm) by simp [lit]]
    rw [partitionChar_found (by decide)]
    simp only
    rw [if_neg (by simp)]
    rw [partitionChar_found hnospace]
    simp only
    rw [if_pos ⟨hall, hne, hlen⟩, hcode, if_neg hcmne]

/-! ## ByteRange codec round trip -/

theorem parseStarOrNat_star (rest : Str) : parseStarOrNat ('*' :: rest) = some (none, rest) := rfl

theorem parseStarOrNat_digits {n : Int} (h0 : 0 ≤ n) {x : Char} (hx : ¬ x.isDigit) (rest : Str) :
    parseStarOrNat (natDigits n.natAbs ++ x :: rest) = some (some n, x :: rest) := by
  rcases hd : natDigits n.natAbs with _ | ⟨c, cs⟩
  · exact absurd hd (natDigits_ne_nil _)
  · have hcd : c.isDigit := natDigits_head_digit _ hd
    unfold parseStarOrNat
    rw [List.cons_append]
    split
    · rename_i heq
      injection heq with h1 h2
      exact absurd hcd (by rw [h1]; decide)
    · rw [← List.cons_append, ← hd]
      rw [takeWhile_append_eq (natDigits_all_digit _) hx]
      rw [if_neg (natDigits_ne_nil _), List.drop_left]
      rw [digitsVal_natDigits, Int.natAbs_of_nonneg h0]

theorem parseStarOrNat_digits_all {n : Int} (h0 : 0 ≤ n) :
    parseStarOrNat (natDigits n.natAbs) = some (some n, []) := by
  rcases hd : natDigits n.natAbs with _ | ⟨c, cs⟩
  · exact absurd hd (natDigits_ne_nil _)
  · have hcd : c.isDigit := natDigits_head_digit _ hd
    unfold parseStarOrNat
    split
    · rename_i heq
      injection heq with h1 h2
      exact absurd hcd (by rw [h1]; decide)
    · rw [← hd]
      rw [takeWhile_all (natDigits_all_digit _)]
      rw [if_neg (natDigits_ne_nil _), List.drop_length]
      rw [digitsVal_natDigits, Int.natAbs_of_nonneg h0]

theorem byteRangeDecode_byteRangeEncode {br : MByteRange} (h : LegalByteRange br) :
    byteRangeDecode (byteRangeEncode br) = some br := by
  obtain ⟨bs, bstop, btot⟩ := br
  obtain ⟨hs, he, ht⟩ := h
  simp only at hs he ht
  have hsa : intStr bs = natDigits bs.natAbs := by
    unfold intStr; rw [if_neg (by omega)]
  have hsv : (digitsVal (natDigits bs.natAbs) : Int) = bs := by
    rw [digitsVal_natDigits]; exact Int.natAbs_of_nonneg hs
  rcases bstop with _ | e <;> rcases btot with _ | t <;>
    (unfold byteRangeEncode byteRangeDecode
     simp only
     rw [hsa, takeWhile_append_eq (natDigits_all_digit _) (by decide)]
     rw [if_neg (natDigits_ne_nil _), List.drop_left]
     simp only [Option.bind_eq_bind])
  · rw [show (['*'] ++ '/' :: ['*'] : Str) = '*' :: '/' :: ['*'] from rfl,
      parseStarOrNat_star]
    simp only [Option.some_bind]
    rw [parseStarOrNat_star]
    simp [hsv]
  · simp only [Option.getD_some] at ht
    have hta : intStr t = natDigits t.natAbs := by
      unfold intStr; rw [if_neg (by omega)]
    rw [hta,
      show (['*'] ++ '/' :: natDigits t.natAbs : Str) = '*' :: '/' :: natDigits t.natAbs from rfl,
      parseStarOrNat_star]
    simp only [Option.some_bind]
    rw [parseStarOrNat_digits_all ht]
    simp [hsv]
  · simp only [Option.getD_some] at he
    have hea : intStr e = natDigits e.natAbs := by
      unfold intStr; rw [if_neg (by omega)]
    rw [hea, parseStarOrNat_digits he (by decide) ['*']]
    simp only [Option.some_bind]
    rw [parseStarOrNat_star]
    simp [hsv]
  · simp only [Option.getD_some] at he ht
    have hea : intStr e = natDigits e.natAbs := by
      unfold intStr; rw [if_neg (by omega)]
    have hta : intStr t = natDigits t.natAbs := by
      unfold intStr; rw [if_neg (by omega)]
    rw [hea, hta, parseStarOrNat_digits he (by decide) (natDigits t.natAbs)]
    simp only [Option.some_bind]
    rw [parseStarOrNat_digits_all ht]
    simp [hsv]

/-! ## UTF-8 round trip -/

theorem utf8DecodeOne_ascii {b : Nat} (hb : b < 0x80) (rest : List Nat) :
    utf8DecodeOne (b :: rest) = some (b, 0) := by
  unfold utf8DecodeOne
  dsimp only
  rw [if_pos hb]

theorem utf8DecodeOne_two {b1 b2 : Nat} (h1 : 0xC0 ≤ b1) (h2 : b1 < 0xE0)
    (hc : isCont b2) (hv : 0x80 ≤ (b1 - 0xC0) * 64 + (b2 - 0x80)) (rest : List Nat) :
    utf8DecodeOne (b1 :: b2 :: rest) = some ((b1 - 0xC0) * 64 + (b2 - 0x80), 1) := by
  unfold utf8DecodeOne
  dsimp only
  rw [if_neg (by omega), if_neg (by omega), if_pos (by omega)]
  rw [if_pos hc, if_pos hv]

theorem utf8DecodeOne_three {b1 b2 b3 : Nat} (h1 : 0xE0 ≤ b1) (h2 : b1 < 0xF0)
    (hc2 : isCont b2) (hc3 : isCont b3)
    (hv : 0x800 ≤ (b1 - 0xE0) * 4096 + (b2 - 0x80) * 64 + (b3 - 0x80) ∧
      ¬(0xD800 ≤ (b1 - 0xE0) * 4096 + (b2 - 0x80) * 64 + (b3 - 0x80) ∧
        (b1 - 0xE0) * 4096 + (b2 - 0x80) * 64 + (b3 - 0x80) ≤ 0xDFFF)) (rest : List Nat) :
    utf8DecodeOne (b1 :: b2 :: b3 :: rest) =
      some ((b1 - 0xE0) * 4096 + (b2 - 0x80) * 64 + (b3 - 0x80), 2) := by
  unfold utf8DecodeOne
  dsimp only
  rw [if_neg (by omega), if_neg (by omega), if_neg (by omega), if_pos (by omega)]
  rw [if_pos ⟨hc2, hc3⟩, if_pos hv]

theorem utf8DecodeOne_four {b1 b2 b3 b4 : Nat} (h1 : 0xF0 ≤ b1) (h2 : b1 < 0xF8)
    (hc2 : isCont b2) (hc3 : isCont b3) (hc4 : isCont b4)
    (hv : 0x10000 ≤ (b1 - 0xF0) * 262144 + (b2 - 0x80) * 4096 + (b3 - 0x80) * 64 + (b4 - 0x80) ∧
      (b1 - 0xF0) * 262144 + (b2 - 0x80) * 4096 + (b3 - 0x80) * 64 + (b4 - 0x80) < 0x110000)
    (rest : List Nat) :
    utf8DecodeOne (b1 :: b2 :: b3 :: b4 :: rest) =
      some ((b1 - 0xF0) * 262144 + (b2 - 0x80) * 4096 + (b3 - 0x80) * 64 + (b4 - 0x80), 3) := by
  unfold utf8DecodeOne
  dsimp only
  rw [if_neg (by omega), if_neg (by omega), if_neg (by omega), if_neg (by omega),
    if_pos (by omega)]
  rw [if_pos ⟨hc2, hc3, hc4⟩, if_pos hv]

theorem isCont_mod64 (n : Nat) : isCont (0x80 + n % 64) := by
  unfold isCont
  simp only [decide_eq_true_eq]
  omega

theorem utf8EncodeNat_decode {n : Nat}
    (hval : n < 0xD800 ∨ (0xDFFF < n ∧ n < 0x110000)) (rest : List Nat) :
    utf8DecodeNats (utf8EncodeNat n ++ rest) = (n :: ·) <$> utf8DecodeNats rest := by
  by_cases h1 : n < 0x80
  · have henc : utf8EncodeNat n = [n] := by
      unfold utf8EncodeNat; rw [if_pos h1]
    rw [henc]
    simp only [List.cons_append, List.nil_append]
    conv_lhs => rw [utf8DecodeNats]
    rw [utf8DecodeOne_ascii h1]
    simp only [List.drop_zero]
  · by_cases h2 : n < 0x800
    · have henc : utf8EncodeNat n = [0xC0 + n / 64, 0x80 + n % 64] := by
        unfold utf8EncodeNat; rw [if_neg h1, if_pos h2]
      rw [henc]
      simp only [List.cons_append, List.nil_append]
      conv_lhs => rw [utf8DecodeNats]
      rw [utf8DecodeOne_two (by omega) (by omega) (isCont_mod64 n) (by omega) rest]
      have hv : (0xC0 + n / 64 - 0xC0) * 64 + (0x80 + n % 64 - 0x80) = n := by omega
      rw [hv]
      simp only [List.drop_succ_cons, List.drop_zero]
    · by_cases h3 : n < 0x10000
      · have henc : utf8EncodeNat n = [0xE0 + n / 4096, 0x80 + n / 64 % 64, 0x80 + n % 64] := by
          unfold utf8EncodeNat; rw [if_neg h1, if_neg h2, if_pos h3]
        rw [henc]
        simp only [List.cons_append, List.nil_append]
        conv_lhs => rw [utf8DecodeNats]
        rw [utf8DecodeOne_three (by omega) (by omega) (isCont_mod64 (n / 64)) (isCont_mod64 n)
          (by constructor <;> omega) rest]
        have hv : (0xE0 + n / 4096 - 0xE0) * 4096 + (0x80 + n / 64 % 64 - 0x80) * 64 +
            (0x80 + n % 64 - 0x80) = n := by omega
        rw [hv]
        simp only [List.drop_succ_cons, List.drop_zero]
      · have h4 : n < 0x110000 := by omega
        have henc : utf8EncodeNat n =
            [0xF0 + n / 262144, 0x80 + n / 4096 % 64, 0x80 + n / 64 % 64, 0x80 + n % 64] := by
          unfold utf8EncodeNat; rw [if_neg h1, if_neg h2, if_neg h3]
        rw [henc]
        simp only [List.cons_append, List.nil_append]
        conv_lhs => rw [utf8DecodeNats]
        rw [utf8DecodeOne_four (by omega) (by omega) (isCont_mod64 (n / 4096))
          (isCont_mod64 (n / 64)) (isCont_mod64 n) (by constructor <;> omega) rest]
        have hv : (0xF0 + n / 262144 - 0xF0) * 262144 + (0x80 + n / 4096 % 64 - 0x80) * 4096 +
            (0x80 + n / 64 % 64 - 0x80) * 64 + (0x80 + n % 64 - 0x80) = n := by omega
        rw [hv]
        simp only [List.drop_succ_cons, List.drop_zero]

theorem utf8Decode_utf8Encode (s : Str) : utf8Decode (utf8Encode s) = some s := by
  have key : utf8DecodeNats (utf8Encode s) = some (s.map Char.toNat) := by
    induction s with
    | nil =>
      rw [show utf8Encode [] = ([] : List Nat) from rfl]
      rw [utf8DecodeNats]
      rfl
    | cons c cs ih =>
      have hval : c.toNat < 0xD800 ∨ (0xDFFF < c.toNat ∧ c.toNat < 0x110000) := by
        have := c.valid
        rcases this with h | ⟨ha, hb⟩
        · left; exact_mod_cast h
        · right
          refine ⟨by exact_mod_cast ha, by exact_mod_cast hb⟩
      have henc : utf8Encode (c :: cs) = utf8EncodeNat c.toNat ++ utf8Encode cs := by
        unfold utf8Encode
        simp [List.flatMap_cons]
      rw [henc, utf8EncodeNat_decode hval, ih]
      rfl
  unfold utf8Decode
  rw [key]
  simp only [Option.map]
  congr 1
  rw [List.map_map]
  have : (Char.ofNat ∘ Char.toNat) = id := by
    funext c
    exact Char.ofNat_toNat c
  rw [this, List.map_id]

/-! ## `findall` scanner round trip on canonical parameter encodings -/

theorem tryMatch_head_nonword {excl c : Char} {cs : Str} (hw : ¬ isWordChar c) :
    tryMatch excl (c :: cs) = none := by
  unfold tryMatch
  rw [List.takeWhile_cons_of_neg (by simpa using hw)]
  simp

theorem tryMatch_encPair {excl : Char} {k v : Str} (hk : k ≠ [])
    (hkw : ∀ c ∈ k, isWordChar c) (hv : v ≠ []) (hvq : '"' ∉ v) (tail : Str) :
    tryMatch excl (k ++ '=' :: '"' :: (v ++ '"' :: tail)) =
      some (k, '"' :: (v ++ ['"']), k.length + v.length + 3) := by
  have hvall : ∀ c ∈ v, (fun x => decide ¬(x = '"')) c = true := by
    intro c hc
    simp only [decide_eq_true_eq]
    exact fun hh => hvq (hh ▸ hc)
  unfold tryMatch
  rw [takeWhile_append_eq hkw (by decide)]
  rw [if_neg hk, List.drop_left]
  dsimp only
  rw [if_pos rfl, if_pos rfl]
  rw [takeWhile_append_eq hvall (by simp)]
  rw [if_neg hv, List.drop_left]
  dsimp only
  rw [if_pos rfl]

theorem findIter_cons_some {excl c : Char} {cs k v : Str} {n : Nat}
    (h : tryMatch excl (c :: cs) = some (k, v, n)) :
    findIter excl (c :: cs) = (k, v) :: findIter excl ((c :: cs).drop n) := by
  conv_lhs => rw [findIter]
  split
  · rename_i k2 v2 n2 h2
    rw [h] at h2
    injection h2 with h3
    injection h3 with h4 h5
    injection h5 with h6 h7
    subst h4; subst h6; subst h7
    rfl
  · rename_i h2
    rw [h] at h2
    exact absurd h2 (by simp)

theorem findIter_cons_none {excl c : Char} {cs : Str}
    (h : tryMatch excl (c :: cs) = none) :
    findIter excl (c :: cs) = findIter excl cs := by
  conv_lhs => rw [findIter]
  split
  · rename_i k2 v2 n2 h2
    rw [h] at h2
    exact absurd h2 (by simp)
  · rfl

theorem findIter_encPair_append {excl : Char} {k v : Str} (hk : k ≠ [])
    (hkw : ∀ c ∈ k, isWordChar c) (hv : v ≠ []) (hvq : '"' ∉ v) (tail : Str) :
    findIter excl (encPair (k, v) ++ tail) = (k, '"' :: (v ++ ['"'])) :: findIter excl tail := by
  have hshape : encPair (k, v) ++ tail = k ++ '=' :: '"' :: (v ++ '"' :: tail) := by
    unfold encPair
    simp
  rw [hshape]
  rcases hks : k with _ | ⟨kc, krest⟩
  · exact absurd hks hk
  · rw [List.cons_append]
    rw [findIter_cons_some (by
      rw [← List.cons_append, ← hks]
      exact tryMatch_encPair hk hkw hv hvq tail)]
    have hlen : (k ++ '=' :: '"' :: (v ++ ['"'])).length = k.length + v.length + 3 := by
      simp
      omega
    have hdrop : (kc :: (krest ++ '=' :: '"' :: (v ++ '"' :: tail))).drop
        (k.length + v.length + 3) = tail := by
      rw [show kc :: (krest ++ '=' :: '"' :: (v ++ '"' :: tail)) =
        (k ++ '=' :: '"' :: (v ++ ['"'])) ++ tail by rw [hks]; simp]
      exact List.drop_left' hlen
    rw [hdrop, hks]

theorem findIter_joinSep {excl : Char} (hexw : ¬ isWordChar excl)
    {ps : List (Str × Str)} (hps : LegalPairs ps) :
    findIter excl (joinSep [excl, ' '] (ps.map encPair)) =
      ps.map (fun p => (p.1, '"' :: (p.2 ++ ['"']))) := by
  induction ps with
  | nil =>
    rw [show joinSep [excl, ' '] (List.map encPair []) = [] from rfl]
    rw [findIter]
    rfl
  | cons p ps ih =>
    obtain ⟨hk, hkw, hv, hvq⟩ := hps p (by simp)
    have hps' : LegalPairs ps := fun q hq => hps q (List.mem_cons_of_mem _ hq)
    rcases hps2 : ps with _ | ⟨p2, ps2⟩
    · rw [show (List.map encPair [p]) = [encPair p] from rfl]
      rw [show joinSep [excl, ' '] [encPair p] = encPair p from rfl]
      rw [show encPair p = encPair p ++ [] by simp]
      obtain ⟨pk, pv⟩ := p
      rw [findIter_encPair_append hk hkw hv hvq []]
      rw [show findIter excl [] = [] by rw [findIter]]
      simp
    · rw [← hps2]
      have hjoin : joinSep [excl, ' '] ((p :: ps).map encPair) =
          encPair p ++ (excl :: ' ' :: joinSep [excl, ' '] (ps.map encPair)) := by
        rw [hps2]
        rw [show (List.map encPair (p :: p2 :: ps2)) =
          encPair p :: encPair p2 :: List.map encPair ps2 from rfl]
        rw [show joinSep [excl, ' '] (encPair p :: encPair p2 :: List.map encPair ps2) =
          encPair p ++ [excl, ' '] ++ joinSep [excl, ' '] (encPair p2 :: List.map encPair ps2)
          from rfl]
        rw [hps2] at *
        simp
      rw [hjoin]
      obtain ⟨pk, pv⟩ := p
      rw [findIter_encPair_append hk hkw hv hvq _]
      rw [findIter_cons_none (tryMatch_head_nonword hexw)]
      rw [findIter_cons_none (tryMatch_head_nonword (by decide))]
      rw [ih hps']
      simp

theorem paramScan_encode {excl : Char} (hexw : ¬ isWordChar excl)
    {ps : List (Str × Str)} (hps : LegalPairs ps) :
    paramScan excl (joinSep [excl, ' '] (ps.map encPair)) = ps := by
  unfold paramScan
  rw [findIter_joinSep hexw hps]
  induction ps with
  | nil => rfl
  | cons p ps ih =>
    obtain ⟨hk, hkw, hv, hvq⟩ := hps p (by simp)
    rw [List.map_cons, List.map_cons]
    rw [ih (fun q hq => hps q (List.mem_cons_of_mem _ hq))]
    dsimp only
    rw [stripChar_quoted hv hvq]

theorem paramListDecode_encode {ps : List (Str × Str)} (hps : LegalPairs ps) :
    paramListDecode (paramListEncode ps) = ps := by
  unfold paramListDecode paramListEncode
  have h2 : ps.map (fun p : Str × Str => p.1 ++ '=' :: '"' :: (p.2 ++ ['"'])) =
      ps.map encPair := rfl
  rw [h2]
  exact paramScan_encode (by decide) hps

theorem digestDecode_encode {ps : List (Str × Str)} (hps : LegalPairs ps) :
    digestDecode (digestEncode ps) = some ps := by
  unfold digestDecode digestEncode
  rw [show lit "Digest " ++ paramListEncode ps =
    lit "Digest" ++ ' ' :: paramListEncode ps from rfl]
  rw [partitionChar_found (by decide)]
  simp only
  rw [if_neg (by simp)]
  rw [paramListDecode_encode hps]

theorem dispDecode_encode {d : Str} {ps : List (Str × Str)}
    (hd : LegalDisposition d) (hps : LegalPairs ps) :
    dispDecode (dispEncode ⟨d, ps⟩) = some ⟨d, ps⟩ := by
  obtain ⟨hdne, hdsemi⟩ := hd
  unfold dispDecode dispEncode
  simp only
  rcases ps with _ | ⟨p2, ps2⟩
  · rw [show joinSep (lit "; ")
      (d :: List.map (fun p : Str × Str => p.1 ++ '=' :: '"' :: (p.2 ++ ['"'])) []) = d from rfl]
    rw [partitionChar_not_found hdsemi]
    simp only
    rw [if_neg hdne]
    rw [show paramScan ';' [] = [] by unfold paramScan; rw [findIter]; rfl]
  · have hxs : List.map (fun p : Str × Str => p.1 ++ '=' :: '"' :: (p.2 ++ ['"'])) (p2 :: ps2) =
        List.map encPair (p2 :: ps2) := rfl
    rw [hxs]
    have hjoin : joinSep (lit "; ") (d :: List.map encPair (p2 :: ps2)) =
        d ++ ';' :: (' ' :: joinSep (lit "; ") (List.map encPair (p2 :: ps2))) := by
      rw [List.map_cons]
      rw [show joinSep (lit "; ") (d :: encPair p2 :: List.map encPair ps2) =
          d ++ lit "; " ++ joinSep (lit "; ") (encPair p2 :: List.map encPair ps2) from rfl]
      rw [show (lit "; " : Str) = [';', ' '] by decide]
      simp
    rw [hjoin]
    rw [partitionChar_found hdsemi]
    simp only
    rw [if_neg hdne]
    unfold paramScan
    rw [findIter_cons_none (tryMatch_head_nonword (by decide))]
    rw [show (findIter ';' (joinSep (lit "; ") (List.map encPair (p2 :: ps2)))).map
        (fun p => (p.1, stripChar '"' p.2)) =
      paramScan ';' (joinSep [';', ' '] (List.map encPair (p2 :: ps2))) from rfl]
    rw [paramScan_encode (by decide) hps]

/-! ## URI round trip -/

theorem natDigits_natAbs_no {n : Int} {c : Char} (hc : c ∈ natDigits n.natAbs) :
    c ≠ ':' ∧ c ≠ '/' ∧ c ≠ ';' ∧ c ≠ '@' ∧ c ≠ ' ' ∧ c ≠ '=' := by
  have hd := natDigits_all_digit _ c hc
  have := isDigit_ne_chars hd
  exact ⟨this.2.2.2.2.2.1, this.2.2.2.2.1, this.2.2.2.2.2.2.1, this.2.2.2.2.2.2.2.1,
    this.2.2.2.1, this.2.2.2.2.2.2.2.2⟩

theorem flatten_params_shape (enc : Str × Str → Str) (p : Str × Str) (ps : List (Str × Str)) :
    ((p :: ps).map (fun q => ';' :: enc q)).flatten =
      ';' :: joinSep [';'] ((p :: ps).map enc) := by
  induction ps generalizing p with
  | nil => simp [joinSep]
  | cons q qs ih =>
    rw [List.map_cons, List.flatten_cons, ih q]
    rw [show ((p :: q :: qs).map enc) = enc p :: enc q :: qs.map enc from rfl]
    rw [show joinSep [';'] (enc p :: enc q :: qs.map enc) =
      enc p ++ [';'] ++ joinSep [';'] (enc q :: qs.map enc) from rfl]
    simp

theorem splitAll_joinSep {c : Char} {parts : List Str} (hparts : ∀ x ∈ parts, c ∉ x)
    (hne : parts ≠ []) :
    splitAllChar c (joinSep [c] parts) = parts := by
  induction parts with
  | nil => exact absurd rfl hne
  | cons x xs ih =>
    rcases xs with _ | ⟨y, ys⟩
    · rw [show joinSep [c] [x] = x from rfl]
      exact splitAllChar_no_sep (hparts x (by simp))
    · rw [show joinSep [c] (x :: y :: ys) = x ++ [c] ++ joinSep [c] (y :: ys) from rfl]
      rw [show x ++ [c] ++ joinSep [c] (y :: ys) = x ++ c :: joinSep [c] (y :: ys) by simp]
      rw [splitAllChar_append (hparts x (by simp))]
      rw [ih (fun z hz => hparts z (List.mem_cons_of_mem _ hz)) (by simp)]

theorem parseParamPair_enc {k v : Str} (hk : '=' ∉ k) (hv : '=' ∉ v) :
    parseParamPair (k ++ '=' :: v) = some (k, v) := by
  unfold parseParamPair
  rw [splitAllChar_append hk, splitAllChar_no_sep hv]

theorem mapM_parseParamPair {ps : List (Str × Str)}
    (hps : ∀ p ∈ ps, '=' ∉ p.1 ∧ '=' ∉ p.2) :
    (ps.map (fun p => p.1 ++ '=' :: p.2)).mapM parseParamPair = some ps := by
  induction ps with
  | nil => rfl
  | cons p ps ih =>
    obtain ⟨hk, hv⟩ := hps p (by simp)
    rw [List.map_cons, List.mapM_cons]
    rw [parseParamPair_enc hk hv, ih (fun q hq => hps q (List.mem_cons_of_mem _ hq))]
    rfl

theorem splitFirst_scheme {scheme R : Str} (hs : ':' ∉ scheme) :
    splitFirst (lit "://") (scheme ++ (lit "://" ++ R)) = some (scheme, R) := by
  rw [show (lit "://" : Str) = ':' :: lit "//" by decide]
  exact splitFirst_append hs

theorem uriParse_uriToStr {u : MURI} (hval : validMURI u = true) (fresh : Str) :
    uriParse fresh (uriToStr u) = some u := by
  obtain ⟨tls, user, host, port, sid, transport, params⟩ := u
  rcases user with _ | us <;>
    (simp only [validMURI, Bool.and_eq_true, decide_eq_true_eq, List.all_eq_true] at hval)
  case none =>
    have hhne : host ≠ [] := by tauto
    have hhost : ∀ c ∈ host, noHostChar c = true := by tauto
    have hport : 0 < port := by tauto
    have hsne : sid ≠ [] := by tauto
    have hsid : ∀ c ∈ sid, noAuthChar c = true := by tauto
    have htr : transport = lit "tcp" := by tauto
    have hparams : ∀ p ∈ params,
        (∀ c ∈ p.1, noParamChar c = true) ∧ (∀ c ∈ p.2, noParamChar c = true) := hval.2
    subst htr
    have hhostc : ∀ c ∈ host, c ≠ ':' ∧ c ≠ '/' ∧ c ≠ ';' ∧ c ≠ '@' ∧ c ≠ ' ' := by
      intro c hc
      have := hhost c hc
      simp only [noHostChar, Bool.and_eq_true, decide_eq_true_eq] at this
      tauto
    have hsidc : ∀ c ∈ sid, c ≠ '@' ∧ c ≠ ';' ∧ c ≠ ' ' := by
      intro c hc
      have := hsid c hc
      simp only [noAuthChar, Bool.and_eq_true, decide_eq_true_eq] at this
      tauto
    have hparamc : ∀ p ∈ params, (∀ c ∈ p.1, c ≠ ';' ∧ c ≠ '=' ∧ c ≠ '@' ∧ c ≠ ' ') ∧
        (∀ c ∈ p.2, c ≠ ';' ∧ c ≠ '=' ∧ c ≠ '@' ∧ c ≠ ' ') := by
      intro p hp
      have hq := hparams p hp
      constructor
      · intro c hc
        have := hq.1 c hc
        simp only [noParamChar, Bool.and_eq_true, decide_eq_true_eq] at this
        tauto
      · intro c hc
        have := hq.2 c hc
        simp only [noParamChar, Bool.and_eq_true, decide_eq_true_eq] at this
        tauto
    have hD : intStr port = natDigits port.natAbs := by
      unfold intStr; rw [if_neg (by omega)]
    have hDdig := natDigits_all_digit port.natAbs
    have hDval : (digitsVal (natDigits port.natAbs) : Int) = port := by
      rw [digitsVal_natDigits]; exact Int.natAbs_of_nonneg (by omega)
    have hA : ';' ∉ host ++ ':' :: (natDigits port.natAbs ++ '/' :: sid) := by
      simp only [List.mem_append, List.mem_cons]
      rintro (hc | hc | hc | hc | hc)
      · exact (hhostc _ hc).2.2.1 rfl
      · exact absurd hc (by decide)
      · exact (natDigits_natAbs_no hc).2.2.1 rfl
      · exact absurd hc (by decide)
      · exact (hsidc _ hc).2.1 rfl
    have hAat : '@' ∉ host ++ ':' :: (natDigits port.natAbs ++ '/' :: sid) := by
      simp only [List.mem_append, List.mem_cons]
      rintro (hc | hc | hc | hc | hc)
      · exact (hhostc _ hc).2.2.2.1 rfl
      · exact absurd hc (by decide)
      · exact (natDigits_natAbs_no hc).2.2.2.1 rfl
      · exact absurd hc (by decide)
      · exact (hsidc _ hc).1 rfl
    have hslash : '/' ∉ host ++ ':' :: natDigits port.natAbs := by
      simp only [List.mem_append, List.mem_cons]
      rintro (hc | hc | hc)
      · exact (hhostc _ hc).2.1 rfl
      · exact absurd hc (by decide)
      · exact (natDigits_natAbs_no hc).2.1 rfl
    have hcolon : ':' ∉ natDigits port.natAbs := fun hc =>
      (natDigits_natAbs_no hc).1 rfl
    have hsplitPort : splitPort (host ++ ':' :: natDigits port.natAbs) =
        (host, some ((digitsVal (natDigits port.natAbs) : Int))) := by
      unfold splitPort
      rw [splitLastChar_append hcolon]
      dsimp only
      rw [if_pos ⟨natDigits_ne_nil _, by rw [List.all_eq_true]; exact hDdig⟩]
    have hshape : uriToStr ⟨tls, none, host, port, sid, lit "tcp", params⟩ =
        (if tls = true then lit "msrps" else lit "msrp") ++
          (lit "://" ++ (host ++ ':' :: (natDigits port.natAbs ++ '/' :: sid) ++
            ';' :: (lit "tcp" ++
              (params.map (fun p => ';' :: (p.1 ++ '=' :: p.2))).flatten))) := by
      unfold uriToStr MURI.scheme
      dsimp only
      rw [if_neg (show ¬ port = 0 by omega), if_neg hsne, hD]
      simp
    unfold uriParse
    rw [hshape, splitFirst_scheme (by rcases tls <;> decide)]
    dsimp only
    rw [show host ++ ':' :: (natDigits port.natAbs ++ '/' :: sid) ++
        ';' :: (lit "tcp" ++ (params.map (fun p => ';' :: (p.1 ++ '=' :: p.2))).flatten) =
      (host ++ ':' :: (natDigits port.natAbs ++ '/' :: sid)) ++
        ';' :: (lit "tcp" ++ (params.map (fun p => ';' :: (p.1 ++ '=' :: p.2))).flatten)
      by simp]
    rw [splitFirst_single hA]
    dsimp only
    rw [splitFirst_none hAat]
    dsimp only
    rw [show host ++ ':' :: (natDigits port.natAbs ++ '/' :: sid) =
      (host ++ ':' :: natDigits port.natAbs) ++ '/' :: sid by simp]
    rw [splitFirst_single hslash]
    dsimp only
    rw [hsplitPort]
    rcases params with _ | ⟨q, qs⟩
    · rw [show (List.map (fun p : Str × Str => ';' :: (p.1 ++ '=' :: p.2)) []).flatten =
        ([] : Str) from rfl]
      rw [List.append_nil]
      rw [splitFirst_none (by decide)]
      dsimp only
      rw [if_neg (by rcases tls <;> decide), if_neg (by decide)]
      unfold mkURI
      rw [if_neg hhne]
      dsimp only
      rcases tls <;> (simp [hDval] <;> decide)
    · rw [flatten_params_shape]
      rw [splitFirst_single (by decide)]
      dsimp only
      rw [if_neg (by rcases tls <;> decide), if_neg (by decide)]
      rw [splitAll_joinSep (by
        intro x hx
        rcases List.mem_map.1 hx with ⟨p, hp, rfl⟩
        obtain ⟨hp1, hp2⟩ := hparamc p hp
        simp only [List.mem_append, List.mem_cons]
        rintro (hc | hc | hc)
        · exact (hp1 _ hc).1 rfl
        · exact absurd hc (by decide)
        · exact (hp2 _ hc).1 rfl) (by simp)]
      rw [mapM_parseParamPair (by
        intro p hp
        obtain ⟨hp1, hp2⟩ := hparamc p hp
        exact ⟨fun hc => (hp1 _ hc).2.1 rfl, fun hc => (hp2 _ hc).2.1 rfl⟩)]
      dsimp only
      unfold mkURI
      rw [if_neg hhne]
      dsimp only
      rcases tls <;> (simp [hDval] <;> decide)
  case some =>
    have hhne : host ≠ [] := by tauto
    have hhost : ∀ c ∈ host, noHostChar c = true := by tauto
    have husne : us ≠ [] := by tauto
    have hus : ∀ c ∈ us, noAuthChar c = true := by tauto
    have hport : 0 < port := by tauto
    have hsne : sid ≠ [] := by tauto
    have hsid : ∀ c ∈ sid, noAuthChar c = true := by tauto
    have htr : transport = lit "tcp" := by tauto
    have hparams : ∀ p ∈ params,
        (∀ c ∈ p.1, noParamChar c = true) ∧ (∀ c ∈ p.2, noParamChar c = true) := hval.2
    subst htr
    have hhostc : ∀ c ∈ host, c ≠ ':' ∧ c ≠ '/' ∧ c ≠ ';' ∧ c ≠ '@' ∧ c ≠ ' ' := by
      intro c hc
      have := hhost c hc
      simp only [noHostChar, Bool.and_eq_true, decide_eq_true_eq] at this
      tauto
    have hsidc : ∀ c ∈ sid, c ≠ '@' ∧ c ≠ ';' ∧ c ≠ ' ' := by
      intro c hc
      have := hsid c hc
      simp only [noAuthChar, Bool.and_eq_true, decide_eq_true_eq] at this
      tauto
    have hparamc : ∀ p ∈ params, (∀ c ∈ p.1, c ≠ ';' ∧ c ≠ '=' ∧ c ≠ '@' ∧ c ≠ ' ') ∧
        (∀ c ∈ p.2, c ≠ ';' ∧ c ≠ '=' ∧ c ≠ '@' ∧ c ≠ ' ') := by
      intro p hp
      have hq := hparams p hp
      constructor
      · intro c hc
        have := hq.1 c hc
        simp only [noParamChar, Bool.and_eq_true, decide_eq_true_eq] at this
        tauto
      · intro c hc
        have := hq.2 c hc
        simp only [noParamChar, Bool.and_eq_true, decide_eq_true_eq] at this
        tauto
    have hD : intStr port = natDigits port.natAbs := by
      unfold intStr; rw [if_neg (by omega)]
    have hDdig := natDigits_all_digit port.natAbs
    have hDval : (digitsVal (natDigits port.natAbs) : Int) = port := by
      rw [digitsVal_natDigits]; exact Int.natAbs_of_nonneg (by omega)
    have hA : ';' ∉ host ++ ':' :: (natDigits port.natAbs ++ '/' :: sid) := by
      simp only [List.mem_append, List.mem_cons]
      rintro (hc | hc | hc | hc | hc)
      · exact (hhostc _ hc).2.2.1 rfl
      · exact absurd hc (by decide)
      · exact (natDigits_natAbs_no hc).2.2.1 rfl
      · exact absurd hc (by decide)
      · exact (hsidc _ hc).2.1 rfl
    have hAat : '@' ∉ host ++ ':' :: (natDigits port.natAbs ++ '/' :: sid) := by
      simp only [List.mem_append, List.mem_cons]
      rintro (hc | hc | hc | hc | hc)
      · exact (hhostc _ hc).2.2.2.1 rfl
      · exact absurd hc (by decide)
      · exact (natDigits_natAbs_no hc).2.2.2.1 rfl
      · exact absurd hc (by decide)
      · exact (hsidc _ hc).1 rfl
    have hslash : '/' ∉ host ++ ':' :: natDigits port.natAbs := by
      simp only [List.mem_append, List.mem_cons]
      rintro (hc | hc | hc)
      · exact (hhostc _ hc).2.1 rfl
      · exact absurd hc (by decide)
      · exact (natDigits_natAbs_no hc).2.1 rfl
    have hcolon : ':' ∉ natDigits port.natAbs := fun hc =>
      (natDigits_natAbs_no hc).1 rfl
    have hsplitPort : splitPort (host ++ ':' :: natDigits port.natAbs) =
        (host, some ((digitsVal (natDigits port.natAbs) : Int))) := by
      unfold splitPort
      rw [splitLastChar_append hcolon]
      dsimp only
      rw [if_pos ⟨natDigits_ne_nil _, by rw [List.all_eq_true]; exact hDdig⟩]
    have husc : ∀ c ∈ us, c ≠ '@' ∧ c ≠ ';' ∧ c ≠ ' ' := by
      intro c hc
      have := hus c hc
      simp only [noAuthChar, Bool.and_eq_true, decide_eq_true_eq] at this
      tauto
    have hAu : ';' ∉ us ++ '@' :: (host ++ ':' :: (natDigits port.natAbs ++ '/' :: sid)) := by
      simp only [List.mem_append, List.mem_cons]
      rintro (hc | hc | hc | hc | hc | hc | hc)
      · exact (husc _ hc).2.1 rfl
      · exact absurd hc (by decide)
      · exact (hhostc _ hc).2.2.1 rfl
      · exact absurd hc (by decide)
      · exact (natDigits_natAbs_no hc).2.2.1 rfl
      · exact absurd hc (by decide)
      · exact (hsidc _ hc).2.1 rfl
    have hat : '@' ∉ us := fun hc => (husc _ hc).1 rfl
    have hshape : uriToStr ⟨tls, some us, host, port, sid, lit "tcp", params⟩ =
        (if tls = true then lit "msrps" else lit "msrp") ++
          (lit "://" ++ (us ++ '@' :: (host ++ ':' :: (natDigits port.natAbs ++ '/' :: sid)) ++
            ';' :: (lit "tcp" ++
              (params.map (fun p => ';' :: (p.1 ++ '=' :: p.2))).flatten))) := by
      unfold uriToStr MURI.scheme
      dsimp only
      rw [if_neg husne, if_neg (show ¬ port = 0 by omega), if_neg hsne, hD]
      simp
    unfold uriParse
    rw [hshape, splitFirst_scheme (by rcases tls <;> decide)]
    dsimp only
    rw [show us ++ '@' :: (host ++ ':' :: (natDigits port.natAbs ++ '/' :: sid)) ++
        ';' :: (lit "tcp" ++ (params.map (fun p => ';' :: (p.1 ++ '=' :: p.2))).flatten) =
      (us ++ '@' :: (host ++ ':' :: (natDigits port.natAbs ++ '/' :: sid))) ++
        ';' :: (lit "tcp" ++ (params.map (fun p => ';' :: (p.1 ++ '=' :: p.2))).flatten)
      by simp]
    rw [splitFirst_single hAu]
    dsimp only
    rw [splitFirst_single hat]
    dsimp only
    rw [show host ++ ':' :: (natDigits port.natAbs ++ '/' :: sid) =
      (host ++ ':' :: natDigits port.natAbs) ++ '/' :: sid by simp]
    rw [splitFirst_single hslash]
    dsimp only
    rw [hsplitPort]
    rcases params with _ | ⟨q, qs⟩
    · rw [show (List.map (fun p : Str × Str => ';' :: (p.1 ++ '=' :: p.2)) []).flatten =
        ([] : Str) from rfl]
      rw [List.append_nil]
      rw [splitFirst_none (by decide)]
      dsimp only
      rw [if_neg (by rcases tls <;> decide), if_neg (by decide)]
      unfold mkURI
      rw [if_neg hhne]
      dsimp only
      rcases tls <;> (simp [hDval] <;> decide)
    · rw [flatten_params_shape]
      rw [splitFirst_single (by decide)]
      dsimp only
      rw [if_neg (by rcases tls <;> decide), if_neg (by decide)]
      rw [splitAll_joinSep (by
        intro x hx
        rcases List.mem_map.1 hx with ⟨p, hp, rfl⟩
        obtain ⟨hp1, hp2⟩ := hparamc p hp
        simp only [List.mem_append, List.mem_cons]
        rintro (hc | hc | hc)
        · exact (hp1 _ hc).1 rfl
        · exact absurd hc (by decide)
        · exact (hp2 _ hc).1 rfl) (by simp)]
      rw [mapM_parseParamPair (by
        intro p hp
        obtain ⟨hp1, hp2⟩ := hparamc p hp
        exact ⟨fun hc => (hp1 _ hc).2.1 rfl, fun hc => (hp2 _ hc).2.1 rfl⟩)]
      dsimp only
      unfold mkURI
      rw [if_neg hhne]
      dsimp only
      rcases tls <;> (simp [hDval] <;> decide)

theorem uriEqb_refl (u : MURI) : uriEqb u u = true := by
  simp [uriEqb]

theorem space_not_in_flatten {params : List (Str × Str)}
    (hparams : ∀ p ∈ params,
      (∀ c ∈ p.1, noParamChar c = true) ∧ (∀ c ∈ p.2, noParamChar c = true)) :
    ' ' ∉ (params.map (fun p => ';' :: (p.1 ++ '=' :: p.2))).flatten := by
  intro h
  obtain ⟨l, hl, hin⟩ := List.mem_flatten.1 h
  obtain ⟨p, hp, rfl⟩ := List.mem_map.1 hl
  obtain ⟨hp1, hp2⟩ := hparams p hp
  rcases List.mem_cons.1 hin with h | h
  · exact absurd h (by decide)
  · rcases List.mem_append.1 h with h | h
    · have := hp1 _ h
      simp [noParamChar] at this
    · rcases List.mem_cons.1 h with h | h
      · exact absurd h (by decide)
      · have := hp2 _ h
        simp [noParamChar] at this

theorem space_not_in_hps {host sid : Str} {port : Int}
    (hhost : ∀ c ∈ host, noHostChar c = true) (hsid : ∀ c ∈ sid, noAuthChar c = true) :
    ' ' ∉ host ++ ':' :: (natDigits port.natAbs ++ '/' :: sid) := by
  intro h
  rcases List.mem_append.1 h with h | h
  · have := hhost _ h
    simp [noHostChar] at this
  · rcases List.mem_cons.1 h with h | h
    · exact absurd h (by decide)
    · rcases List.mem_append.1 h with h | h
      · exact (isDigit_ne_chars (natDigits_all_digit _ _ h)).2.2.2.1 rfl
      · rcases List.mem_cons.1 h with h | h
        · exact absurd h (by decide)
        · have := hsid _ h
          simp [noAuthChar] at this

theorem uriToStr_no_space {u : MURI} (hval : validMURI u = true) : ' ' ∉ uriToStr u := by
  obtain ⟨tls, user, host, port, sid, transport, params⟩ := u
  rcases user with _ | us <;>
    simp only [validMURI, Bool.and_eq_true, decide_eq_true_eq, List.all_eq_true] at hval
  case none =>
    have hhost : ∀ c ∈ host, noHostChar c = true := by tauto
    have hport : 0 < port := by tauto
    have hsne : sid ≠ [] := by tauto
    have hsid : ∀ c ∈ sid, noAuthChar c = true := by tauto
    have htr : transport = lit "tcp" := by tauto
    have hparams : ∀ p ∈ params,
        (∀ c ∈ p.1, noParamChar c = true) ∧ (∀ c ∈ p.2, noParamChar c = true) := hval.2
    subst htr
    have hD : intStr port = natDigits port.natAbs := by
      unfold intStr; rw [if_neg (by omega)]
    have hshape : uriToStr ⟨tls, none, host, port, sid, lit "tcp", params⟩ =
        (if tls = true then lit "msrps" else lit "msrp") ++
          (lit "://" ++ (host ++ ':' :: (natDigits port.natAbs ++ '/' :: sid) ++
            ';' :: (lit "tcp" ++
              (params.map (fun p => ';' :: (p.1 ++ '=' :: p.2))).flatten))) := by
      unfold uriToStr MURI.scheme
      dsimp only
      rw [if_neg (show ¬ port = 0 by omega), if_neg hsne, hD]
      simp
    rw [hshape]
    intro hmem
    rcases List.mem_append.1 hmem with h | h
    · rcases tls <;> (revert h; decide)
    · rcases List.mem_append.1 h with h | h
      · revert h; decide
      · rcases List.mem_append.1 h with h | h
        · exact space_not_in_hps hhost hsid h
        · rcases List.mem_cons.1 h with h | h
          · exact absurd h (by decide)
          · rcases List.mem_append.1 h with h | h
            · revert h; decide
            · exact space_not_in_flatten hparams h
  case some =>
    have hhost : ∀ c ∈ host, noHostChar c = true := by tauto
    have husne : us ≠ [] := by tauto
    have hus : ∀ c ∈ us, noAuthChar c = true := by tauto
    have hport : 0 < port := by tauto
    have hsne : sid ≠ [] := by tauto
    have hsid : ∀ c ∈ sid, noAuthChar c = true := by tauto
    have htr : transport = lit "tcp" := by tauto
    have hparams : ∀ p ∈ params,
        (∀ c ∈ p.1, noParamChar c = true) ∧ (∀ c ∈ p.2, noParamChar c = true) := hval.2
    subst htr
    have hD : intStr port = natDigits port.natAbs := by
      unfold intStr; rw [if_neg (by omega)]
    have hshape : uriToStr ⟨tls, some us, host, port, sid, lit "tcp", params⟩ =
        (if tls = true then lit "msrps" else lit "msrp") ++
          (lit "://" ++ (us ++ '@' :: (host ++ ':' :: (natDigits port.natAbs ++ '/' :: sid)) ++
            ';' :: (lit "tcp" ++
              (params.map (fun p => ';' :: (p.1 ++ '=' :: p.2))).flatten))) := by
      unfold uriToStr MURI.scheme
      dsimp only
      rw [if_neg husne, if_neg (show ¬ port = 0 by omega), if_neg hsne, hD]
      simp
    rw [hshape]
    intro hmem
    rcases List.mem_append.1 hmem with h | h
    · rcases tls <;> (revert h; decide)
    · rcases List.mem_append.1 h with h | h
      · revert h; decide
      · rcases List.mem_append.1 h with h | h
        · rcases List.mem_append.1 h with h | h
          · have := hus _ h
            simp [noAuthChar] at this
          · rcases List.mem_cons.1 h with h | h
            · exact absurd h (by decide)
            · exact space_not_in_hps hhost hsid h
        · rcases List.mem_cons.1 h with h | h
          · exact absurd h (by decide)
          · rcases List.mem_append.1 h with h | h
            · revert h; decide
            · exact space_not_in_flatten hparams h

/-- URI-list codec round trip (`URIHeaderType`): decoding the encoding
of a nonempty list of valid URIs recovers the list. -/
theorem uriListDecode_encode {us : List MURI} (hne : us ≠ [])
    (hval : ∀ u ∈ us, validMURI u = true) (fresh : Str) :
    uriListDecode fresh (uriListEncode us) = some us := by
  unfold uriListDecode uriListEncode
  rw [splitAll_joinSep (by
      intro x hx
      rcases List.mem_map.1 hx with ⟨u, hu, rfl⟩
      exact uriToStr_no_space (hval u hu))
    (by
      intro hmap
      exact hne (List.map_eq_nil_iff.1 hmap))]
  induction us with
  | nil => rfl
  | cons u us ih =>
    rw [List.map_cons, List.mapM_cons]
    rw [uriParse_uriToStr (hval u (by simp)) fresh]
    rcases hus : us with _ | ⟨u2, us2⟩
    · rfl
    · rw [← hus]
      have := ih (by rw [hus]; simp) (fun v hv => hval v (List.mem_cons_of_mem _ hv))
      rw [this]
      rfl

/-! ## `read_chunk` event-sequence lemmas -/

theorem readChunkLoop_writes {maxSize : Nat} {c : MSRPData} {acc : Str} {ws : List Str}
    {rest : List FramerEvent}
    (h : ∀ i < ws.length, (acc ++ (ws.take (i + 1)).flatten).length ≤ maxSize) :
    readChunkLoop maxSize c acc (ws.map .dataWrite ++ rest) =
      readChunkLoop maxSize c (acc ++ ws.flatten) rest := by
  induction ws generalizing acc with
  | nil => simp
  | cons w ws ih =>
    rw [List.map_cons, List.cons_append]
    rw [show readChunkLoop maxSize c acc (.dataWrite w :: (ws.map .dataWrite ++ rest)) =
      (if (acc ++ w).length > maxSize then some (.error ())
       else readChunkLoop maxSize c (acc ++ w) (ws.map .dataWrite ++ rest)) from rfl]
    rw [if_neg (by
      have := h 0 (by simp)
      simp only [List.take_succ_cons, List.take_zero, List.flatten_cons, List.flatten_nil,
        List.append_nil] at this
      omega)]
    rw [ih (fun i hi => by
      have := h (i + 1) (by simpa using Nat.succ_lt_succ hi)
      simp only [List.take_succ_cons, List.flatten_cons] at this
      simp only [List.append_assoc] at this ⊢
      exact this)]
    simp

theorem readChunkLoop_overflow {maxSize : Nat} {c : MSRPData} {acc : Str} {ws : List Str}
    {rest : List FramerEvent}
    (h : ∃ i < ws.length, maxSize < (acc ++ (ws.take (i + 1)).flatten).length) :
    readChunkLoop maxSize c acc (ws.map .dataWrite ++ rest) = some (.error ()) := by
  induction ws generalizing acc with
  | nil =>
    obtain ⟨i, hi, _⟩ := h
    simp at hi
  | cons w ws ih =>
    rw [List.map_cons, List.cons_append]
    rw [show readChunkLoop maxSize c acc (.dataWrite w :: (ws.map .dataWrite ++ rest)) =
      (if (acc ++ w).length > maxSize then some (.error ())
       else readChunkLoop maxSize c (acc ++ w) (ws.map .dataWrite ++ rest)) from rfl]
    by_cases hover : (acc ++ w).length > maxSize
    · rw [if_pos hover]
    · rw [if_neg hover]
      apply ih
      obtain ⟨i, hi, hbig⟩ := h
      rcases i with _ | j
      · exfalso
        simp only [List.take_succ_cons, List.take_zero, List.flatten_cons, List.flatten_nil,
          List.append_nil] at hbig
        omega
      · refine ⟨j, by simpa using Nat.lt_of_succ_lt_succ hi, ?_⟩
        simp only [List.take_succ_cons, List.flatten_cons] at hbig
        simp only [List.append_assoc] at hbig ⊢
        exact hbig

theorem readChunkEnd_dataEnd (c : MSRPData) (acc f : Str) (rest : List FramerEvent) :
    readChunkEnd c acc (.dataEnd f :: rest) =
      (if containsSub f (lit "$+#") then some (.ok { c with data := acc, contflag := f })
       else some (.error ())) := rfl

theorem containsSub_flag {f : Str} (h : f = lit "$" ∨ f = lit "+" ∨ f = lit "#") :
    containsSub f (lit "$+#") = true := by
  rcases h with rfl | rfl | rfl <;> decide

/-! ## `MSRPData` construction lemmas -/

theorem mkMSRPData_response (tid : Str) (code : Int) (comment : Str) :
    mkMSRPData tid none (some code) (some comment) =
      .ok ⟨tid, none, some code, some comment, [], [], lit "$",
        firstLine tid none (some code) (some comment)⟩ := by
  simp [mkMSRPData]

theorem mkMSRPData_request (tid : Str) (m : Str) :
    mkMSRPData tid (some m) =
      .ok ⟨tid, some m, none, none, [], [], lit "$", firstLine tid (some m) none none⟩ := by
  simp [mkMSRPData]

/-! # Claims -/

/-- C1 counterexample: the claim fails as stated.  The spec itself
admits URI texts with the port omitted, and
`msrp://example.com/s1;tcp` is accepted by `URI.parse` inside the
URI-list codec; decoding fills in the default port 2855, so re-encoding
yields `msrp://example.com:2855/s1;tcp`, not the original text.  Hence
`encode(decode(t)) ≠ t` for a legal encoded text of the URI-list kind. -/
theorem C1_counterexample :
    uriListDecode (lit "0") (lit "msrp://example.com/s1;tcp") =
      some [⟨false, none, lit "example.com", 2855, lit "s1", lit "tcp", []⟩] ∧
    uriListEncode [⟨false, none, lit "example.com", 2855, lit "s1", lit "tcp", []⟩] =
      lit "msrp://example.com:2855/s1;tcp" ∧
    lit "msrp://example.com:2855/s1;tcp" ≠ lit "msrp://example.com/s1;tcp" :=
  ⟨by decide, by decide, by decide⟩

/-- C1 (amended): `decode(encode(v)) = v` holds for every header-value
kind — opaque string, UTF-8, URI list, integer, enum, ByteRange,
Status, ContentDisposition, ParameterList, Digest — for every value `v`
within the kind's representable range (non-negative byte-range fields;
a three-digit code and non-empty-comment status; nonempty word-run keys
and nonempty quote-free values in parameter grammars; nonempty
disposition free of `;`; nonempty lists of URIs with valid fields, up
to the URI equality the decoder restores).  Consequently
`encode(decode(t)) = t` holds for every canonically encoded text `t`
(the image of `encode`); it fails for other legal texts, as the
counterexample shows. -/
theorem C1_header_codec_roundtrip_amended
    (s : Str) (cs : Str) (n : Int) (fr sr : Str)
    (hfr : fr ∈ failureAllowed) (hsr : sr ∈ successAllowed)
    (br : MByteRange) (hbr : LegalByteRange br)
    (st : MStatus) (hst : LegalStatus st)
    (d : Str) (dps : List (Str × Str)) (hd : LegalDisposition d) (hdps : LegalPairs dps)
    (ps : List (Str × Str)) (hps : LegalPairs ps)
    (dg : List (Str × Str)) (hdg : LegalPairs dg)
    (us : List MURI) (hus : us ≠ []) (husv : ∀ u ∈ us, validMURI u = true) (fresh : Str) :
    simpleDecode (simpleEncode s) = s ∧
    utf8Decode (utf8Encode cs) = some cs ∧
    intDecode (intEncode n) = some n ∧
    choiceDecode failureAllowed fr = some fr ∧
    choiceDecode successAllowed sr = some sr ∧
    byteRangeDecode (byteRangeEncode br) = some br ∧
    statusDecode (statusEncode st) = some st ∧
    dispDecode (dispEncode ⟨d, dps⟩) = some ⟨d, dps⟩ ∧
    paramListDecode (paramListEncode ps) = ps ∧
    digestDecode (digestEncode dg) = some dg ∧
    uriListDecode fresh (uriListEncode us) = some us := by
  refine ⟨rfl, utf8Decode_utf8Encode cs, intDecode_intStr n, ?_, ?_,
    byteRangeDecode_byteRangeEncode hbr, statusDecode_statusEncode hst,
    dispDecode_encode hd hdps, paramListDecode_encode hps, digestDecode_encode hdg,
    uriListDecode_encode hus husv fresh⟩
  · unfold choiceDecode
    rw [if_pos hfr]
  · unfold choiceDecode
    rw [if_pos hsr]

/-- C1 witness: the amended round trip evaluated at concrete values of
every kind. -/
theorem C1_header_codec_roundtrip_witness :
    simpleDecode (simpleEncode (lit "text/plain")) = lit "text/plain" ∧
    utf8Decode (utf8Encode (lit "héllo")) = some (lit "héllo") ∧
    intDecode (intEncode (-57)) = some (-57) ∧
    choiceDecode failureAllowed (lit "partial") = some (lit "partial") ∧
    choiceDecode successAllowed (lit "yes") = some (lit "yes") ∧
    byteRangeDecode (byteRangeEncode ⟨1, none, some 99⟩) = some ⟨1, none, some 99⟩ ∧
    statusDecode (statusEncode ⟨200, some (lit "OK")⟩) = some ⟨200, some (lit "OK")⟩ ∧
    dispDecode (dispEncode ⟨lit "attachment", [(lit "filename", lit "a.txt")]⟩) =
      some ⟨lit "attachment", [(lit "filename", lit "a.txt")]⟩ ∧
    paramListDecode (paramListEncode [(lit "realm", lit "x y"), (lit "nonce", lit "abc")]) =
      [(lit "realm", lit "x y"), (lit "nonce", lit "abc")] ∧
    digestDecode (digestEncode [(lit "realm", lit "x")]) = some [(lit "realm", lit "x")] ∧
    uriListDecode (lit "0") (uriListEncode
        [⟨true, some (lit "alice"), lit "a.example.com", 2855, lit "s1", lit "tcp", []⟩]) =
      some [⟨true, some (lit "alice"), lit "a.example.com", 2855, lit "s1", lit "tcp", []⟩] :=
  C1_header_codec_roundtrip_amended (lit "text/plain") (lit "héllo") (-57)
    (lit "partial") (lit "yes") (by decide) (by decide)
    ⟨1, none, some 99⟩ (by decide)
    ⟨200, some (lit "OK")⟩ (by decide)
    (lit "attachment") [(lit "filename", lit "a.txt")] (by decide) (by decide)
    [(lit "realm", lit "x y"), (lit "nonce", lit "abc")] (by decide)
    [(lit "realm", lit "x")] (by decide)
    [⟨true, some (lit "alice"), lit "a.example.com", 2855, lit "s1", lit "tcp", []⟩]
    (by decide) (by decide) (lit "0")

/-- C2: for every URI `u` constructed from valid fields,
`URI.parse(str(u)) == u` under the RFC 4975 §6.1 equality, which
compares exactly `(use_tls, lowercased host, port, session_id,
lowercased transport)` and therefore ignores the user part and the
parameters (changing them leaves equality intact). -/
theorem C2_uri_parse_str_roundtrip (u : MURI) (hval : validMURI u = true) (fresh : Str)
    (v : Option Str) (ps : List (Str × Str)) :
    (∃ w, uriParse fresh (uriToStr u) = some w ∧ uriEqb w u = true) ∧
    uriEqb u { u with user := v, parameters := ps } = true := by
  refine ⟨⟨u, uriParse_uriToStr hval fresh, uriEqb_refl u⟩, ?_⟩
  simp [uriEqb]

/-- C2 witness: the round trip at a concrete URI with user and
parameters. -/
theorem C2_uri_parse_str_roundtrip_witness :
    (∃ w, uriParse (lit "0")
        (uriToStr ⟨true, some (lit "alice"), lit "Example.COM", 12345, lit "deadbeef",
          lit "tcp", [(lit "k", lit "v")]⟩) = some w ∧
      uriEqb w ⟨true, some (lit "alice"), lit "Example.COM", 12345, lit "deadbeef",
          lit "tcp", [(lit "k", lit "v")]⟩ = true) ∧
    uriEqb ⟨true, some (lit "alice"), lit "Example.COM", 12345, lit "deadbeef",
        lit "tcp", [(lit "k", lit "v")]⟩
      { (⟨true, some (lit "alice"), lit "Example.COM", 12345, lit "deadbeef",
          lit "tcp", [(lit "k", lit "v")]⟩ : MURI) with user := none, parameters := [] } = true :=
  C2_uri_parse_str_roundtrip _ (by decide) (lit "0") none []

/-- C9: `contains_mime_type` lowercases the patterns and the content
type, strips everything from the first `;` of the content type, and
returns `True` exactly when some pattern is `*`, equals the normalized
type, or is `type/*` with the normalized type starting with `type/`
(the pattern minus its final `*`). -/
theorem C9_contains_mime_type (mimetypelist : List Str) (mimetype : Str) :
    containsMimeType mimetypelist mimetype = true ↔
      ∃ pat ∈ mimetypelist,
        lowerStr pat = ['*'] ∨
        lowerStr pat = (partitionChar ';' (lowerStr mimetype)).1 ∨
        ((lit "/*").isSuffixOf (lowerStr pat) = true ∧
          (lowerStr pat).dropLast.isPrefixOf (partitionChar ';' (lowerStr mimetype)).1 = true) := by
  unfold containsMimeType
  rw [List.any_eq_true]
  constructor
  · rintro ⟨pat, hpat, hcond⟩
    refine ⟨pat, hpat, ?_⟩
    simp only [Bool.or_eq_true, Bool.and_eq_true, decide_eq_true_eq] at hcond
    tauto
  · rintro ⟨pat, hpat, hcond⟩
    refine ⟨pat, hpat, ?_⟩
    simp only [Bool.or_eq_true, Bool.and_eq_true, decide_eq_true_eq]
    tauto

/-- C10: a URI constructed without `use_tls` defaults to TLS: its
scheme is `msrps` and its serialization starts with `msrps://`; the
scheme is `msrp` exactly when `use_tls=False` was passed explicitly. -/
theorem C10_uri_default_tls (host : Str) (user : Option Str) (port : Option Int)
    (sid : Option Str) (transport : Str) (params : List (Str × Str)) (fresh : Str)
    (b : Option Bool) :
    (mkURI host none user port sid transport params fresh).use_tls = true ∧
    (mkURI host none user port sid transport params fresh).scheme = lit "msrps" ∧
    (lit "msrps://").isPrefixOf
      (uriToStr (mkURI host none user port sid transport params fresh)) = true ∧
    ((mkURI host b user port sid transport params fresh).scheme = lit "msrp" ↔
      b = some false) := by
  refine ⟨rfl, rfl, ?_, ?_⟩
  · unfold uriToStr MURI.scheme
    rw [if_pos (show (mkURI host none user port sid transport params fresh).use_tls = true
      from rfl)]
    apply List.isPrefixOf_iff_prefix.2
    rw [show (lit "msrps://" : Str) = lit "msrps" ++ lit "://" by decide]
    simp only [List.append_assoc]
    rw [← List.append_assoc]
    exact List.prefix_append _ _
  · rcases b with _ | b
    · rw [show (mkURI host none user port sid transport params fresh).scheme = lit "msrps"
        from rfl]
      decide
    · rcases b
      · rw [show (mkURI host (some false) user port sid transport params fresh).scheme =
          lit "msrp" from rfl]
        decide
      · rw [show (mkURI host (some true) user port sid transport params fresh).scheme =
          lit "msrps" from rfl]
        decide

/-- C3: for a request chunk carrying To-Path and From-Path headers,
`make_response(chunk, code, comment)` returns `None` exactly when the
chunk's Failure-Report is `no`, or it is `partial` and the code is 200;
otherwise it returns a response whose To-Path is `[chunk.from_path[0]]`
for SEND requests and the full `chunk.from_path` for others, and whose
From-Path is `[chunk.to_path[0]]`. -/
theorem C3_make_response (chunk : MSRPData) (code : Int) (comment : Str)
    (t0 f0 : MURI) (trest frest : List MURI)
    (ht : toPath chunk = some (t0 :: trest)) (hf : fromPath chunk = some (f0 :: frest)) :
    (makeResponse chunk code comment = .ok none ↔
      (failureReport chunk = lit "no" ∨
        (failureReport chunk = lit "partial" ∧ code = 200))) ∧
    (¬ (failureReport chunk = lit "no" ∨
        (failureReport chunk = lit "partial" ∧ code = 200)) →
      ∃ r, makeResponse chunk code comment = .ok (some r) ∧
        r.method = none ∧ r.code = some code ∧ r.comment = some comment ∧
        toPath r = some (if chunk.method = some (lit "SEND") then [f0] else f0 :: frest) ∧
        fromPath r = some [t0]) := by
  unfold makeResponse
  rw [ht, hf]
  by_cases h1 : failureReport chunk = lit "no"
  · rw [if_pos h1]
    exact ⟨⟨fun _ => Or.inl h1, fun _ => rfl⟩, fun hn => absurd (Or.inl h1) hn⟩
  · rw [if_neg h1]
    by_cases h2 : failureReport chunk = lit "partial" ∧ code = 200
    · rw [if_pos h2]
      exact ⟨⟨fun _ => Or.inr h2, fun _ => rfl⟩, fun hn => absurd (Or.inr h2) hn⟩
    · rw [if_neg h2]
      rw [mkMSRPData_response]
      refine ⟨⟨fun hcontra => ?_, fun hcontra => absurd hcontra (by tauto)⟩, ?_⟩
      · exact absurd hcontra (by simp)
      · intro _
        refine ⟨_, rfl, rfl, rfl, rfl, ?_, ?_⟩
        · simp +decide [toPath, headersGet, addHeader, headersSet]
        · simp +decide [fromPath, headersGet, addHeader, headersSet]

/-- C3 witness: the suppression criterion at a concrete SEND chunk with
default (absent) Failure-Report and a 481 response code. -/
theorem C3_make_response_witness :
    makeResponse ⟨lit "t1", some (lit "SEND"), none, none,
        [(lit "To-Path", .vUris [⟨false, none, lit "a", 2855, lit "s", lit "tcp", []⟩]),
         (lit "From-Path", .vUris [⟨false, none, lit "b", 2855, lit "s", lit "tcp", []⟩])],
        [], lit "$", []⟩ 481 (lit "No Such Session") = .ok none ↔
      (failureReport ⟨lit "t1", some (lit "SEND"), none, none,
        [(lit "To-Path", .vUris [⟨false, none, lit "a", 2855, lit "s", lit "tcp", []⟩]),
         (lit "From-Path", .vUris [⟨false, none, lit "b", 2855, lit "s", lit "tcp", []⟩])],
        [], lit "$", []⟩ = lit "no" ∨
        (failureReport ⟨lit "t1", some (lit "SEND"), none, none,
        [(lit "To-Path", .vUris [⟨false, none, lit "a", 2855, lit "s", lit "tcp", []⟩]),
         (lit "From-Path", .vUris [⟨false, none, lit "b", 2855, lit "s", lit "tcp", []⟩])],
        [], lit "$", []⟩ = lit "partial" ∧ (481 : Int) = 200)) :=
  (C3_make_response _ 481 (lit "No Such Session")
    ⟨false, none, lit "a", 2855, lit "s", lit "tcp", []⟩
    ⟨false, none, lit "b", 2855, lit "s", lit "tcp", []⟩ [] []
    (by decide) (by decide)).1

/-- C4: for a chunk carrying From-Path and To-Path headers and whose
Failure-Report value is one of the three legal ones, `make_report`
returns `None` exactly when Success-Report is not `yes` and
(Failure-Report is `no` or the code is 200); otherwise it returns a
REPORT with the fresh transaction id, To-Path the original From-Path,
From-Path `[original.to_path[0]]`, the Status `(000, code, comment)`,
the original Message-ID, and Byte-Range `(1, size, size)` when the
original chunk has no Byte-Range and `(start, start+size-1, total)`
otherwise. -/
theorem C4_make_report (tid : Str) (chunk : MSRPData) (code : Int) (comment : Option Str)
    (fp : List MURI) (t0 : MURI) (trest : List MURI)
    (hf : fromPath chunk = some fp) (ht : toPath chunk = some (t0 :: trest))
    (hfr : failureReport chunk ∈ failureAllowed) :
    (makeReport tid chunk code comment = .ok none ↔
      (successReport chunk ≠ lit "yes" ∧
        (failureReport chunk = lit "no" ∨ code = 200))) ∧
    (¬ (successReport chunk ≠ lit "yes" ∧
        (failureReport chunk = lit "no" ∨ code = 200)) →
      ∃ r, makeReport tid chunk code comment = .ok (some r) ∧
        r.transaction_id = tid ∧ r.method = some (lit "REPORT") ∧
        toPath r = some fp ∧ fromPath r = some [t0] ∧
        headersGet (lit "Status") r.headers = some (.vStatus ⟨code, comment⟩) ∧
        headersGet (lit "Message-ID") r.headers =
          some (match messageId chunk with | some m => .vStr m | none => .vNone) ∧
        byteRange r = some (match byteRange chunk with
          | none => ⟨1, some (chunkSize chunk : Int), some (chunkSize chunk : Int)⟩
          | some br => ⟨br.start, some (br.start + (chunkSize chunk : Int) - 1), br.total⟩)) := by
  unfold makeReport
  rw [hf, ht]
  by_cases hc : successReport chunk = lit "yes" ∨
      ((failureReport chunk = lit "yes" ∨ failureReport chunk = lit "partial") ∧ code ≠ 200)
  · rw [if_pos hc]
    rw [mkMSRPData_request]
    have hnotclaim : ¬ (successReport chunk ≠ lit "yes" ∧
        (failureReport chunk = lit "no" ∨ code = 200)) := by
      rintro ⟨hsr, hd⟩
      rcases hc with hy | ⟨hfr2, h200⟩
      · exact hsr hy
      · rcases hd with hno | h200'
        · rcases hfr2 with h | h <;> (rw [h] at hno; exact absurd hno (by decide))
        · exact h200 h200'
    rcases hbr : byteRange chunk with _ | br
    · refine ⟨⟨fun hcontra => absurd hcontra (by simp), fun hclaim => absurd hclaim hnotclaim⟩, ?_⟩
      intro _
      refine ⟨_, rfl, rfl, rfl, ?_, ?_, ?_, ?_, ?_⟩
      · simp +decide [toPath, headersGet, addHeader, headersSet]
      · simp +decide [fromPath, headersGet, addHeader, headersSet]
      · simp +decide [headersGet, addHeader, headersSet]
      · simp +decide [headersGet, addHeader, headersSet]
      · have harith : (1 : Int) + (chunkSize chunk : Int) - 1 = (chunkSize chunk : Int) := by omega
        simp +decide [byteRange, headersGet, addHeader, headersSet, harith]
    · refine ⟨⟨fun hcontra => absurd hcontra (by simp), fun hclaim => absurd hclaim hnotclaim⟩, ?_⟩
      intro _
      refine ⟨_, rfl, rfl, rfl, ?_, ?_, ?_, ?_, ?_⟩
      · simp +decide [toPath, headersGet, addHeader, headersSet]
      · simp +decide [fromPath, headersGet, addHeader, headersSet]
      · simp +decide [headersGet, addHeader, headersSet]
      · simp +decide [headersGet, addHeader, headersSet]
      · simp +decide [byteRange, headersGet, addHeader, headersSet]
  · rw [if_neg hc]
    have hclaim : successReport chunk ≠ lit "yes" ∧
        (failureReport chunk = lit "no" ∨ code = 200) := by
      have h1 : successReport chunk ≠ lit "yes" := fun hy => hc (Or.inl hy)
      refine ⟨h1, ?_⟩
      by_cases h200 : code = 200
      · exact Or.inr h200
      · left
        simp only [failureAllowed, List.mem_cons, List.not_mem_nil, or_false] at hfr
        rcases hfr with h | h | h
        · exact absurd (Or.inr ⟨Or.inl h, h200⟩) hc
        · exact h
        · exact absurd (Or.inr ⟨Or.inr h, h200⟩) hc
    exact ⟨⟨fun _ => hclaim, fun _ => rfl⟩, fun hn => absurd hclaim hn⟩

/-- C4 witness: the suppression criterion of `make_report` at a
concrete chunk with default report headers and code 481. -/
theorem C4_make_report_witness :
    makeReport (lit "r1") ⟨lit "t1", some (lit "SEND"), none, none,
        [(lit "To-Path", .vUris [⟨false, none, lit "a", 2855, lit "s", lit "tcp", []⟩]),
         (lit "From-Path", .vUris [⟨false, none, lit "b", 2855, lit "s", lit "tcp", []⟩])],
        [], lit "$", []⟩ 481 none ≠ .ok none := by
  have h := (C4_make_report (lit "r1") ⟨lit "t1", some (lit "SEND"), none, none,
      [(lit "To-Path", .vUris [⟨false, none, lit "a", 2855, lit "s", lit "tcp", []⟩]),
       (lit "From-Path", .vUris [⟨false, none, lit "b", 2855, lit "s", lit "tcp", []⟩])],
      [], lit "$", []⟩ 481 none
      [⟨false, none, lit "b", 2855, lit "s", lit "tcp", []⟩]
      ⟨false, none, lit "a", 2855, lit "s", lit "tcp", []⟩ []
      (by decide) (by decide) (by decide)).1
  intro hcontra
  exact absurd (h.1 hcontra) (by decide)

/-- C5: `make_send_request(data=D)` with default start/end/length
yields a chunk whose stored Byte-Range has a numeric end (equal to
`|D|`) exactly when `|D| ≤ 2048` and the unknown end `*` (encoded from
`None`) when `|D| > 2048`, and whose continuation flag is `$`; in
general the flag is `$` exactly when the byte range covers the message
completely (`end = length`) and `+` otherwise. -/
theorem C5_send_request_byte_range (tid mid : Str) (lp rp : List MURI) (ru lu : MURI)
    (data : Str) (startv : Int) (endv lengthv : Option Int) :
    (∃ chunk, makeSendRequest tid mid lp rp ru lu data = .ok chunk ∧
      byteRange chunk = some ⟨1, if (data.length : Int) ≤ 2048 then some (data.length : Int)
        else none, some (data.length : Int)⟩ ∧
      ((∃ n : Int, byteRange chunk = some ⟨1, some n, some (data.length : Int)⟩) ↔
        (data.length : Int) ≤ 2048) ∧
      chunk.contflag = lit "$" ∧ chunk.data = data) ∧
    (∃ c2, makeSendRequest tid mid lp rp ru lu data startv endv lengthv = .ok c2 ∧
      c2.contflag = if endv.getD (startv - 1 + (data.length : Int)) =
          lengthv.getD (startv - 1 + (data.length : Int)) then lit "$" else lit "+") := by
  have key : ∀ (sv : Int) (ev lv : Option Int),
      makeSendRequest tid mid lp rp ru lu data sv ev lv = .ok
        { transaction_id := tid, method := some (lit "SEND"), code := none, comment := none,
          headers := [(lit "To-Path", .vUris (lp ++ rp ++ [ru])),
            (lit "From-Path", .vUris [lu]),
            (lit "Byte-Range", .vByteRange ⟨sv,
              if lv.getD (sv - 1 + (data.length : Int)) ≤ 2048
                then some (ev.getD (sv - 1 + (data.length : Int))) else none,
              some (lv.getD (sv - 1 + (data.length : Int)))⟩),
            (lit "Message-ID", .vStr mid)],
          data := data,
          contflag := if ev.getD (sv - 1 + (data.length : Int)) =
              lv.getD (sv - 1 + (data.length : Int)) then lit "$" else lit "+",
          first_line := firstLine tid (some (lit "SEND")) none none } := by
    intro sv ev lv
    unfold makeSendRequest makeRequest
    rw [mkMSRPData_request]
    simp +decide [addHeader, headersSet, headersGet]
  have h0 : (1 : Int) - 1 + (data.length : Int) = (data.length : Int) := by omega
  have hbr1 : ∀ chunk, makeSendRequest tid mid lp rp ru lu data = .ok chunk →
      byteRange chunk = some ⟨1, if (data.length : Int) ≤ 2048 then some (data.length : Int)
        else none, some (data.length : Int)⟩ := by
    intro chunk hchunk
    rw [key 1 none none] at hchunk
    injection hchunk with h
    subst h
    simp +decide [byteRange, headersGet, Option.getD, h0]
  constructor
  · refine ⟨_, key 1 none none, hbr1 _ (key 1 none none), ?_, ?_, rfl⟩
    · rw [hbr1 _ (key 1 none none)]
      by_cases hle : (data.length : Int) ≤ 2048
      · rw [if_pos hle]
        exact ⟨fun _ => hle, fun _ => ⟨_, rfl⟩⟩
      · rw [if_neg hle]
        constructor
        · rintro ⟨n, hn⟩
          simp at hn
        · intro h; exact absurd h hle
    · simp
  · exact ⟨_, key startv endv lengthv, rfl⟩

/-- C8: a chunk without a Failure-Report header reads back `yes` from
the `failure_report` accessor and one without Success-Report reads back
`no` from `success_report`; consequently `make_response` never returns
`None` for such a chunk, and `make_report` returns `None` exactly when
the code is 200. -/
theorem C8_report_defaults (c : MSRPData)
    (hfrh : headersGet (lit "Failure-Report") c.headers = none)
    (hsrh : headersGet (lit "Success-Report") c.headers = none)
    (code : Int) (comment : Str) (rcomment : Option Str) (tid : Str) :
    failureReport c = lit "yes" ∧ successReport c = lit "no" ∧
    makeResponse c code comment ≠ .ok none ∧
    (makeReport tid c code rcomment = .ok none ↔ code = 200) := by
  have hf : failureReport c = lit "yes" := by unfold failureReport; rw [hfrh]
  have hs : successReport c = lit "no" := by unfold successReport; rw [hsrh]
  refine ⟨hf, hs, ?_, ?_⟩
  · unfold makeResponse
    rw [hf]
    rw [if_neg (by decide)]
    rw [if_neg (by rintro ⟨h1, _⟩; exact absurd h1 (by decide))]
    rcases htp : toPath c with _ | ⟨_ | ⟨t0, ts⟩⟩ <;>
      rcases hfp : fromPath c with _ | ⟨_ | ⟨f0, fs⟩⟩ <;>
      simp [mkMSRPData_response]
  · unfold makeReport
    rw [hf, hs]
    by_cases h200 : code = 200
    · rw [if_neg (by simp +decide [h200])]
      simp [h200]
    · rw [if_pos (Or.inr ⟨Or.inl rfl, h200⟩)]
      rcases hfp : fromPath c with _ | fps <;>
        rcases htp : toPath c with _ | ⟨_ | ⟨t0, ts⟩⟩ <;>
        simp [mkMSRPData_request, h200]

/-- C8 witness: the defaults and the two suppression consequences at a
concrete chunk with no report headers. -/
theorem C8_report_defaults_witness :
    failureReport ⟨lit "T", some (lit "SEND"), none, none, [], [], lit "$", []⟩ = lit "yes" ∧
    successReport ⟨lit "T", some (lit "SEND"), none, none, [], [], lit "$", []⟩ = lit "no" ∧
    makeResponse ⟨lit "T", some (lit "SEND"), none, none, [], [], lit "$", []⟩ 200 [] ≠
      .ok none ∧
    (makeReport (lit "r") ⟨lit "T", some (lit "SEND"), none, none, [], [], lit "$", []⟩
        200 none = .ok none ↔ (200 : Int) = 200) :=
  C8_report_defaults ⟨lit "T", some (lit "SEND"), none, none, [], [], lit "$", []⟩
    (by decide) (by decide) 200 [] none (lit "r")

/-- C6 counterexample: the claim fails as stated.  With
`max_size = 3`, the sequence DATA_START, DATA_WRITE "aa",
DATA_FINAL_WRITE "bbb", DATA_END "$" assembles a 5-byte payload, yet
`read_chunk` returns the chunk successfully instead of raising
ChunkParseError: the size check runs only after ordinary writes, never
after the final write. -/
theorem C6_counterexample :
    readChunk 3 [.dataStart ⟨lit "t", some (lit "SEND"), none, none, [], [], lit "$", []⟩,
        .dataWrite (lit "aa"), .dataFinalWrite (lit "bbb"), .dataEnd (lit "$")] =
      some (.ok ⟨lit "t", some (lit "SEND"), none, none, [], lit "aabbb", lit "$", []⟩) ∧
    (lit "aabbb").length > 3 := ⟨rfl, by decide⟩

/-- C6 (amended): `read_chunk(max_size)` assembles the chunk whose data
is the concatenation of the payload writes for DATA_START, zero or more
DATA_WRITE, an optional DATA_FINAL_WRITE, then DATA_END with flag in
`{$, +, #}`, provided each prefix of the payload accumulated at an
*ordinary* write stays within `max_size` — the final write is exempt
from the size check, so only the accumulation up to the last ordinary
write is bounded; it raises ChunkParseError when an ordinary write
pushes the accumulation past `max_size`, when the continuation flag is
invalid, and when the event sequence is unexpected. -/
theorem C6_read_chunk_amended (maxSize : Nat) (c c2 : MSRPData) (ws : List Str)
    (f flag badflag s : Str) (evs : List FramerEvent)
    (hflag : flag = lit "$" ∨ flag = lit "+" ∨ flag = lit "#") :
    ((∀ i < ws.length, (c.data ++ (ws.take (i + 1)).flatten).length ≤ maxSize) →
      readChunk maxSize (.dataStart c :: (ws.map .dataWrite ++ [.dataEnd flag])) =
        some (.ok { c with data := c.data ++ ws.flatten, contflag := flag }) ∧
      readChunk maxSize
          (.dataStart c :: (ws.map .dataWrite ++ [.dataFinalWrite f, .dataEnd flag])) =
        some (.ok { c with data := c.data ++ ws.flatten ++ f, contflag := flag })) ∧
    ((∃ i < ws.length, maxSize < (c.data ++ (ws.take (i + 1)).flatten).length) →
      readChunk maxSize (.dataStart c :: (ws.map .dataWrite ++ evs)) = some (.error ())) ∧
    (containsSub badflag (lit "$+#") = false →
      readChunk maxSize [.dataStart c, .dataEnd badflag] = some (.error ())) ∧
    readChunk maxSize (.dataWrite s :: evs) = some (.error ()) ∧
    readChunk maxSize (.dataStart c :: .dataStart c2 :: evs) = some (.error ()) := by
  refine ⟨?_, ?_, ?_, rfl, rfl⟩
  · intro hsz
    constructor
    · show readChunkLoop maxSize c c.data (ws.map .dataWrite ++ [.dataEnd flag]) = _
      rw [readChunkLoop_writes hsz]
      show readChunkEnd c (c.data ++ ws.flatten) [.dataEnd flag] = _
      rw [readChunkEnd_dataEnd, if_pos (containsSub_flag hflag)]
    · show readChunkLoop maxSize c c.data
        (ws.map .dataWrite ++ [.dataFinalWrite f, .dataEnd flag]) = _
      rw [readChunkLoop_writes hsz]
      show readChunkEnd c (c.data ++ ws.flatten ++ f) [.dataEnd flag] = _
      rw [readChunkEnd_dataEnd, if_pos (containsSub_flag hflag)]
  · intro hov
    show readChunkLoop maxSize c c.data (ws.map .dataWrite ++ evs) = _
    exact readChunkLoop_overflow hov
  · intro hbad
    show readChunkEnd c c.data [.dataEnd badflag] = _
    rw [readChunkEnd_dataEnd, if_neg (by simp [hbad])]

/-- C6 witness: the amended success case at a concrete two-write
sequence with a final write, under `max_size = 10`. -/
theorem C6_read_chunk_amended_witness :
    readChunk 10 [.dataStart ⟨lit "t", some (lit "SEND"), none, none, [], [], lit "$", []⟩,
        .dataWrite (lit "ab"), .dataWrite (lit "cd"), .dataFinalWrite (lit "xyz"),
        .dataEnd (lit "$")] =
      some (.ok ⟨lit "t", some (lit "SEND"), none, none, [], lit "abcdxyz", lit "$", []⟩) := by
  have h := ((C6_read_chunk_amended 10
      ⟨lit "t", some (lit "SEND"), none, none, [], [], lit "$", []⟩
      ⟨lit "t", some (lit "SEND"), none, none, [], [], lit "$", []⟩
      [lit "ab", lit "cd"] (lit "xyz") (lit "$") (lit "%") (lit "q") []
      (Or.inl rfl)).1 (by decide)).2
  exact h.trans (by rfl)

/-- C7 counterexample: the claim fails as stated.  The transaction id
`MSRP` is legal by the grammar, but assigning a new id rewrites *all*
occurrences of the old id in the first line with `str.replace`: the
first line `MSRP MSRP SEND` becomes `abcd abcd SEND`, not the canonical
`MSRP abcd SEND`. -/
theorem C7_counterexample :
    setTransactionId ⟨lit "MSRP", some (lit "SEND"), none, none, [], [], lit "$",
        firstLine (lit "MSRP") (some (lit "SEND")) none none⟩ (lit "abcd") =
      ⟨lit "abcd", some (lit "SEND"), none, none, [], [], lit "$", lit "abcd abcd SEND"⟩ ∧
    lit "abcd abcd SEND" ≠ firstLine (lit "abcd") (some (lit "SEND")) none none := by decide

/-- C7 (amended): if a chunk's first line is canonical — the fixed
prefix `MSRP ` followed by the transaction id and a suffix (` <method>`
for requests, ` <NNN>[ comment]` for responses) — and the old id occurs
nowhere else in the line (not overlapping the fixed prefix and not as a
substring of the suffix), then assigning `transaction_id = t` rewrites
the first line to the canonical line for `t` with the suffix — hence
method, code and comment — unchanged, and stores `t`; assigning
`method` or `code` post-construction always raises. -/
theorem C7_transaction_id_amended (c : MSRPData) (t suffix : Str)
    (hcanon : c.first_line = lit "MSRP " ++ (c.transaction_id ++ suffix))
    (htid : c.transaction_id ≠ [])
    (hnopre : ∀ i < (lit "MSRP ").length,
      ¬ c.transaction_id.isPrefixOf (c.first_line.drop i))
    (hsuf : containsSub c.transaction_id suffix = false) :
    (setTransactionId c t).first_line = lit "MSRP " ++ (t ++ suffix) ∧
    (setTransactionId c t).transaction_id = t ∧
    (setTransactionId c t).method = c.method ∧
    (setTransactionId c t).code = c.code ∧
    (setTransactionId c t).comment = c.comment ∧
    (∀ m, setMethod c m = .error ()) ∧
    (∀ k, setCode c k = .error ()) := by
  refine ⟨?_, rfl, rfl, rfl, rfl, fun _ => rfl, fun _ => rfl⟩
  show replaceAll c.first_line c.transaction_id t = lit "MSRP " ++ (t ++ suffix)
  rw [hcanon]
  rw [hcanon] at hnopre
  exact replaceAll_append htid hnopre hsuf

/-- C7 witness: the amended rewrite at a concrete request chunk with
canonical first line `MSRP abcd SEND` and new id `wxyz`. -/
theorem C7_transaction_id_amended_witness :
    (setTransactionId ⟨lit "abcd", some (lit "SEND"), none, none, [], [], lit "$",
        lit "MSRP abcd SEND"⟩ (lit "wxyz")).first_line = lit "MSRP wxyz SEND" := by
  have h := (C7_transaction_id_amended ⟨lit "abcd", some (lit "SEND"), none, none, [], [],
      lit "$", lit "MSRP abcd SEND"⟩ (lit "wxyz") (lit " SEND")
      (by decide) (by decide) (by decide) (by decide)).1
  exact h.trans (by decide)

end Msrp